import Mathlib

/-!
Shallow embedding of the reconciliation engine of `scrapeNload.py`
(repository TradeScrape).

The Python source is a single script whose core is `main`: for each
configured scraping task it formats the freshly scraped table rows
(`format_row`), normalizes the existing destination-sheet cells
(`normalize_sheet_value`), compares dates (`compare_dates`), and then
either advances the per-task cursor (persisting it with
`update_config_file` before writing), overwrites in place, or skips;
a retroactive pass may overwrite the row preceding the cursor.

The embedding below translates that logic into executable Lean
functions.  External effects are reified:

* a run of a task produces an ordered trace of `Event`s
  (`Event.persist` models the `update_config_file` call,
  `Event.write` models one `sheet.update_cell` call);
* Python exceptions are reified in `PyErr`: `PyErr.exc` is any
  `Exception` (caught by the per-task `except Exception` handler in
  `main`, which logs and skips the task), `PyErr.fatal` is
  `SystemExit` raised by `sys.exit(1)` (which is *not* an `Exception`
  and therefore escapes the per-task handler and terminates the run);
* the destination sheet is the rectangular grid of strings returned by
  `sheet.get_all_values()`, written through `setCell` (modelling
  `update_cell`, which pads the occupied region as needed).

Python builtins used by the source (`str.strip`, `str.replace`,
`in`, list indexing and slicing, `float`, float formatting,
`datetime.strptime`) are modelled by the `py`-prefixed helpers; each
model's doc comment states its domain of exactness.  The `dateutil`
date parser is an external collaborator and is abstracted as a
function parameter.
-/

/-- Reified Python error classes: `exc` is any `Exception` (caught by the
per-task handler in `main`), `fatal` is `SystemExit` from `sys.exit(1)`
(not an `Exception`, so it escapes the per-task handler). -/
inductive PyErr : Type
  | exc
  | fatal
deriving DecidableEq, Repr

/-- Result of a computation that can raise a reified Python error. -/
inductive PyResult (A : Type) : Type
  | ok (a : A)
  | err (e : PyErr)
deriving DecidableEq, Repr

/-- Whitespace characters stripped by Python `str.strip()` (ASCII subset). -/
def pySpace (c : Char) : Bool :=
  c = ' ' ∨ c = '\t' ∨ c = '\n' ∨ c = '\r' ∨ c = '\x0b' ∨ c = '\x0c'

/-- Model of Python `str.strip()` (ASCII whitespace). -/
def pyStrip (s : String) : String :=
  ⟨((s.data.dropWhile pySpace).reverse.dropWhile pySpace).reverse⟩

/-- Model of Python `str.rstrip(chars)` for a single character. -/
def pyRstripChar (s : String) (c : Char) : String :=
  ⟨(s.data.reverse.dropWhile (· = c)).reverse⟩

/-- Fuel-driven worker for `pyReplace`: replaces non-overlapping occurrences
of `sub` left to right, as Python `str.replace` does.  The fuel is always
instantiated with the length of the scanned list, which suffices because
every step consumes at least one character when `sub` is nonempty. -/
def replaceFuel (sub rep : List Char) : Nat → List Char → List Char
  | _, [] => []
  | 0, l => l
  | fuel + 1, c :: rest =>
    if sub.isPrefixOf (c :: rest) ∧ sub ≠ [] then
      rep ++ replaceFuel sub rep fuel ((c :: rest).drop sub.length)
    else
      c :: replaceFuel sub rep fuel rest

/-- Model of Python `str.replace(sub, rep)` for nonempty `sub` (the source
only replaces nonempty substrings). -/
def pyReplace (s sub rep : String) : String :=
  ⟨replaceFuel sub.data rep.data s.data.length s.data⟩

/-- Substring occurrence test on character lists. -/
def containsSub (sub : List Char) : List Char → Bool
  | [] => sub.isPrefixOf []
  | c :: rest => sub.isPrefixOf (c :: rest) || containsSub sub rest

/-- Model of the Python substring test `sub in s` for nonempty `sub`. -/
def pyIn (sub s : String) : Bool :=
  containsSub sub.data s.data

/-- Model of Python `str.endswith(suf)`. -/
def pyEndsWith (s suf : String) : Bool :=
  suf.data.isSuffixOf s.data

/-- Model of Python `s[:-1]`. -/
def pyDropLast (s : String) : String :=
  ⟨s.data.dropLast⟩

/-- Model of Python list indexing `l[i]` with negative-index wrapping;
`none` is an `IndexError`. -/
def pyGet {A : Type} (l : List A) (i : Int) : Option A :=
  let j : Int := if i < 0 then i + l.length else i
  if 0 ≤ j ∧ j < l.length then l.get? j.toNat else none

/-- Model of Python list slicing `l[i:j]` (step 1): bounds are clamped,
negative bounds wrap, and slicing never raises. -/
def pySlice {A : Type} (l : List A) (i j : Int) : List A :=
  let n : Int := l.length
  let i' : Int := if i < 0 then max (n + i) 0 else min i n
  let j' : Int := if j < 0 then max (n + j) 0 else min j n
  (l.drop i'.toNat).take (j'.toNat - i'.toNat)

/-- Model of Python `max` over a list of ints (`none` is the `ValueError`
raised on an empty list). -/
def pyListMax : List Int → Option Int
  | [] => none
  | [x] => some x
  | x :: y :: rest => (pyListMax (y :: rest)).map (fun m => max x m)

/-- Greedy parse of one or two leading decimal digits, as matched by the
`strptime` patterns for `%d` and `%m`; returns the candidate values in
the order the regex alternation tries them (two digits first). -/
def twoDigitCandidates : List Char → List (Nat × List Char)
  | c1 :: c2 :: rest =>
    if c1.isDigit ∧ c2.isDigit then
      [((c1.toNat - 48) * 10 + (c2.toNat - 48), rest), (c1.toNat - 48, c2 :: rest)]
    else if c1.isDigit then
      [(c1.toNat - 48, c2 :: rest)]
    else
      []
  | [c1] => if c1.isDigit then [(c1.toNat - 48, [])] else []
  | [] => []

/-- Parse for `%Y`: exactly four leading decimal digits, as matched by the
`strptime` pattern for `%Y`. -/
def fourDigitYear : List Char → Option (Nat × List Char)
  | c1 :: c2 :: c3 :: c4 :: rest =>
    if c1.isDigit ∧ c2.isDigit ∧ c3.isDigit ∧ c4.isDigit then
      some (((c1.toNat - 48) * 10 + (c2.toNat - 48)) * 100 +
        ((c3.toNat - 48) * 10 + (c4.toNat - 48)), rest)
    else none
  | _ => none

/-- Gregorian leap-year rule used by `datetime`. -/
def isLeap (y : Nat) : Bool :=
  y % 4 = 0 ∧ (y % 100 ≠ 0 ∨ y % 400 = 0)

/-- Days in a month, as validated by the `datetime` constructor. -/
def daysInMonth (y m : Nat) : Nat :=
  if m = 2 then (if isLeap y then 29 else 28)
  else if m = 4 ∨ m = 6 ∨ m = 9 ∨ m = 11 then 30
  else 31

/-- Model of `datetime.strptime(s, "%d/%m/%Y")`: `%d` matches a one- or
two-digit day 1–31, `%m` a one- or two-digit month 1–12, `%Y` one to four
digits, separated by literal slashes, with nothing left over; the
resulting calendar date must be valid and the year at least 1
(`datetime.MINYEAR`).  Returns `(year, month, day)`; `none` is the
`ValueError` raised on any mismatch. -/
def strptimeDMY (s : String) : Option (Nat × Nat × Nat) :=
  ((twoDigitCandidates s.data).filterMap (fun (d, rest1) =>
    if 1 ≤ d ∧ d ≤ 31 then
      match rest1 with
      | '/' :: rest2 =>
        ((twoDigitCandidates rest2).filterMap (fun (m, rest3) =>
          if 1 ≤ m ∧ m ≤ 12 then
            match rest3 with
            | '/' :: rest4 =>
              match fourDigitYear rest4 with
              | some (y, rest5) =>
                if rest5 = [] ∧ 1 ≤ y ∧ d ≤ daysInMonth y m then
                  some (y, m, d)
                else none
              | none => none
            | _ => none
          else none)).head?
      | _ => none
    else none)).head?

/-- Strict lexicographic order on `(year, month, day)` triples, matching
`datetime` comparison. -/
def dateLtB (a b : Nat × Nat × Nat) : Bool :=
  a.1 < b.1 ∨ (a.1 = b.1 ∧ (a.2.1 < b.2.1 ∨ (a.2.1 = b.2.1 ∧ a.2.2 < b.2.2)))

/-- Embedding of `compare_dates` (scrapeNload.py lines 140–161): parses both
strings as `%d/%m/%Y`, returns 1 when the new date is later, 0 when equal,
-1 when earlier; any parse failure is caught and also yields -1. -/
def compare_dates (new_date sheet_date : String) : Int :=
  match strptimeDMY new_date, strptimeDMY sheet_date with
  | some n, some sdt =>
    if dateLtB sdt n then 1
    else if n = sdt then 0
    else -1
  | _, _ => -1

/-- Lower-case an ASCII letter (Python case-insensitive float names). -/
def lowerAscii (c : Char) : Char :=
  if 'A' ≤ c ∧ c ≤ 'Z' then Char.ofNat (c.toNat + 32) else c

/-- Split an optional leading sign; `true` means negative. -/
def splitSign : List Char → Bool × List Char
  | '+' :: r => (false, r)
  | '-' :: r => (true, r)
  | l => (false, l)

/-- Characters a Python float digit group may contain (digits and the
underscore separators allowed since Python 3.6). -/
def digitGroupChar (c : Char) : Bool :=
  c.isDigit ∨ c = '_'

/-- Longest leading span of digit-group characters and the remainder. -/
def uSpan (l : List Char) : List Char × List Char :=
  (l.takeWhile digitGroupChar, l.dropWhile digitGroupChar)

/-- Whether a span is a valid Python `digitpart`: nonempty, starts and ends
with a digit, and every underscore sits between two digits. -/
def validDigitPart : List Char → Bool
  | [] => false
  | [c] => c.isDigit
  | c :: '_' :: rest => c.isDigit && validDigitPart rest
  | c :: d :: rest => c.isDigit && validDigitPart (d :: rest)

/-- Numeric value of a list of decimal digit characters. -/
def digitsVal (ds : List Char) : Nat :=
  ds.foldl (fun acc c => acc * 10 + (c.toNat - 48)) 0

/-- Parse the exponent suffix of a Python float literal; `some 0` when the
input is empty, `none` on any mismatch. -/
def parseExp : List Char → Option Int
  | [] => some 0
  | c :: r =>
    if c = 'e' ∨ c = 'E' then
      let sr := splitSign r
      let sp := uSpan sr.2
      if validDigitPart sp.1 ∧ sp.2 = [] then
        let v : Nat := digitsVal (sp.1.filter Char.isDigit)
        some (if sr.1 then -(v : Int) else (v : Int))
      else none
    else none

/-- Parse the unsigned numeric part of a Python float literal, returning
`(mantissa, exponent)` with value `mantissa * 10 ^ exponent`; `none` on any
grammar mismatch. -/
def parseNumeric (l : List Char) : Option (Nat × Int) :=
  let isp := uSpan l
  let iok := validDigitPart isp.1
  let iempty := isp.1 = []
  match isp.2 with
  | '.' :: rest2 =>
    let fsp := uSpan rest2
    let fok := validDigitPart fsp.1
    let fempty := fsp.1 = []
    if (iok ∨ iempty) ∧ (fok ∨ fempty) ∧ ¬(iempty ∧ fempty) then
      match parseExp fsp.2 with
      | some e =>
        let fdigits := fsp.1.filter Char.isDigit
        some (digitsVal (isp.1.filter Char.isDigit) * 10 ^ fdigits.length +
          digitsVal fdigits, e - (fdigits.length : Int))
      | none => none
    else none
  | _ =>
    if iok then
      match parseExp isp.2 with
      | some e => some (digitsVal (isp.1.filter Char.isDigit), e)
      | none => none
    else none

/-- Exact value classes a Python `float(...)` call can produce. -/
inductive PyFloat : Type
  | finite (neg : Bool) (mant : Nat) (exp : Int)
  | inf (neg : Bool)
  | nan
deriving DecidableEq, Repr

/-- Outcome of a Python `float(...)` call: a value, a `ValueError`, or an
`OverflowError` (the latter is an `Exception` but not a `ValueError`, so the
`except ValueError` in `normalize_sheet_value` does not catch it). -/
inductive PyFloatParse : Type
  | val (v : PyFloat)
  | valueError
  | overflowError
deriving DecidableEq, Repr

/-- Fuel-driven decimal digit rendering (most significant first); the fuel
bounds the recursion depth and is always instantiated with the number
itself, which suffices since `n / 10 < n` for `n ≠ 0`. -/
def digitsFuel : Nat → Nat → List Char
  | 0, _ => []
  | fuel + 1, n =>
    if n = 0 then []
    else digitsFuel fuel (n / 10) ++ [Char.ofNat (48 + n % 10)]

/-- Decimal digit characters of a natural number, most significant first. -/
def digitsOfNat (n : Nat) : List Char :=
  if n = 0 then ['0'] else digitsFuel n n

/-- Number of decimal digits of a natural number. -/
def numDigits (n : Nat) : Nat :=
  (digitsOfNat n).length

/-- The overflow threshold of IEEE binary64 under round-to-nearest-even:
`float(s)` raises `OverflowError` exactly when the exact decimal magnitude
reaches the midpoint above the largest finite double. -/
def ovThreshold : Nat := 2 ^ 1024 - 2 ^ 970

/-- Whether `mant * 10 ^ exp` overflows a double.  The digit-count guards
keep the decision cheap for huge exponents; the boundary zone is decided
exactly against `ovThreshold`. -/
def overflows (mant : Nat) (exp : Int) : Bool :=
  if mant = 0 then false
  else
    let d : Int := (numDigits mant : Int)
    if d + exp ≤ 308 then false
    else if d - 1 + exp ≥ 309 then true
    else if 0 ≤ exp then
      decide (ovThreshold ≤ mant * 10 ^ exp.toNat)
    else
      decide (ovThreshold * 10 ^ (-exp).toNat ≤ mant)

/-- Model of Python `float(s)`.  Grammar (optional sign, digit groups with
underscores, optional point and exponent, `inf`/`infinity`/`nan` names,
surrounding whitespace) follows the CPython `float` grammar restricted to
ASCII.  The exact decimal value is kept; see `pyFloatRepr` for the
rounding-free domain of the model. -/
def pyFloat (s : String) : PyFloatParse :=
  let t := (pyStrip s).data
  let sg := splitSign t
  let low := sg.2.map lowerAscii
  if low = "inf".data ∨ low = "infinity".data then .val (.inf sg.1)
  else if low = "nan".data then .val .nan
  else
    match parseNumeric sg.2 with
    | some (m, e) =>
      if overflows m e then .overflowError else .val (.finite sg.1 m e)
    | none => .valueError

/-- Strip trailing decimal zeros: returns `(m', k)` with `m = m' * 10 ^ k`
and `m'` not divisible by 10 (for `m ≠ 0`).  Fuel is the digit count. -/
def stripTensFuel : Nat → Nat → Nat × Nat
  | _, 0 => (0, 0)
  | 0, m => (m, 0)
  | fuel + 1, m =>
    if m % 10 = 0 then
      let p := stripTensFuel fuel (m / 10)
      (p.1, p.2 + 1)
    else (m, 0)

/-- Strip trailing decimal zeros of a natural number. -/
def stripTens (m : Nat) : Nat × Nat :=
  stripTensFuel m m

/-- Model of CPython float `repr` (which `str` and f-strings use) applied to
the exact decimal value of the parsed literal.  Exact for values that are
zero, infinite, NaN, or finite with at most 15 significant decimal digits
and magnitude between about 2.3e-308 and the overflow threshold: for those,
the shortest round-tripping decimal of the rounded double is exactly the
trailing-zero-stripped input decimal, rendered positionally when the leading
digit's decimal exponent is between -4 and 15 and in scientific notation
otherwise.  All values arising in this development are inside that domain. -/
def pyFloatRepr (v : PyFloat) : String :=
  match v with
  | .nan => "nan"
  | .inf neg => if neg then "-inf" else "inf"
  | .finite neg m e =>
    let sign : String := if neg then "-" else ""
    if m = 0 then sign ++ "0.0"
    else
      let p := stripTens m
      let e' : Int := e + (p.2 : Int)
      let ds := digitsOfNat p.1
      let L : Nat := ds.length
      let E : Int := (L : Int) - 1 + e'
      if -4 ≤ E ∧ E ≤ 15 then
        if 0 ≤ e' then
          sign ++ ⟨ds⟩ ++ ⟨List.replicate e'.toNat '0'⟩ ++ ".0"
        else
          let k2 := (-e').toNat
          if L > k2 then
            sign ++ ⟨ds.take (L - k2)⟩ ++ "." ++ ⟨ds.drop (L - k2)⟩
          else
            sign ++ "0." ++ ⟨List.replicate (k2 - L) '0'⟩ ++ ⟨ds⟩
      else
        let mantStr : String :=
          match ds with
          | [] => "0"
          | [c] => ⟨[c]⟩
          | c :: rest => ⟨[c]⟩ ++ "." ++ ⟨rest⟩
        let eabs := (if E < 0 then -E else E).toNat
        let epad : String :=
          if eabs < 10 then "0" ++ ⟨digitsOfNat eabs⟩ else ⟨digitsOfNat eabs⟩
        sign ++ mantStr ++ "e" ++ (if E < 0 then "-" else "+") ++ epad

/-- Embedding of `normalize_sheet_value` (scrapeNload.py lines 92–116):
strips the value; for percentage-suffixed values parses the comma-to-point
converted numeric part as a float and re-renders it with a comma decimal
separator and the percent sign, where a `ValueError` triggers
`sys.exit(1)` (reified as `PyErr.fatal`); otherwise removes every `.`;
otherwise returns the stripped value. -/
def normalize_sheet_value (value : String) : PyResult String :=
  let v := pyStrip value
  if pyEndsWith v "%" then
    let number_part := pyReplace (pyDropLast v) "," "."
    match pyFloat number_part with
    | .val q => .ok (pyRstripChar (pyReplace (pyFloatRepr q) "." ",") ',' ++ "%")
    | .valueError => .err .fatal
    | .overflowError => .err .exc
  else if pyIn "." v then .ok (pyReplace v "." "")
  else .ok v

/-- Embedding of `convert_k_to_number` (inside `format_row`, scrapeNload.py
lines 56–59): replaces a thousands `K` by three zeros, then a decimal point
by a comma. -/
def convert_k_to_number (value : String) : String :=
  let v1 := if pyIn "K" value then pyReplace value "K" "000" else value
  if pyIn "." v1 then pyReplace v1 "." "," else v1

/-- Fuel-driven removal of the non-greedy regex `\(.*?\)` occurrences, as
`re.sub` applies it: at each `(` with a later `)`, the shortest span through
the first `)` is removed; a `(` with no later `)` can never match. -/
def dropParensFuel : Nat → List Char → List Char
  | _, [] => []
  | 0, l => l
  | fuel + 1, c :: rest =>
    if c = '(' then
      if rest.dropWhile (fun x => x ≠ ')') = [] then c :: rest
      else dropParensFuel fuel (rest.dropWhile (fun x => x ≠ ')')).tail
    else c :: dropParensFuel fuel rest

/-- Characters kept by the second cleaning step of `normalize_date`
(the character class `[0-9A-Za-z./\- ]`). -/
def allowedDateChar (c : Char) : Bool :=
  c.isDigit ∨ c.isAlpha ∨ c = '.' ∨ c = '/' ∨ c = '-' ∨ c = ' '

/-- Left-pad the decimal rendering of `n` with zeros to width `w`
(`strftime` zero-padded fields). -/
def padZeros (w : Nat) (n : Nat) : String :=
  ⟨List.replicate (w - numDigits n) '0'⟩ ++ ⟨digitsOfNat n⟩

/-- Rendering of `strftime("%d/%m/%Y")` on a `(year, month, day)` triple. -/
def fmtDMY (y m d : Nat) : String :=
  padZeros 2 d ++ "/" ++ padZeros 2 m ++ "/" ++ padZeros 4 y

/-- The cleaning pipeline of `normalize_date`: remove parenthesised text,
strip, filter to the allowed character class, strip again. -/
def cleanedDate (date_str : String) : String :=
  let cleaned := pyStrip ⟨dropParensFuel date_str.data.length date_str.data⟩
  pyStrip ⟨cleaned.data.filter allowedDateChar⟩

/-- Embedding of `normalize_date` (scrapeNload.py lines 61–83): removes
parenthesised text, filters to the allowed character class, strips, then
parses with the external `dateutil` parser (abstracted as `du`, returning a
`(year, month, day)` triple or `none` for a parse failure) and re-renders as
`DD/MM/YYYY`; every failure falls back to the original string. -/
def normalize_date (du : String → Option (Nat × Nat × Nat)) (date_str : String) : String :=
  match du (cleanedDate date_str) with
  | some (y, m, d) => fmtDMY y m d
  | none => date_str

/-- A formatted observation row, as returned by `format_row`: normalized
date, forecast, actual (the first three entries of the returned list) and
the preliminary flag. -/
structure FRow where
  date : String
  forecast : String
  actual : String
  p : Bool
deriving DecidableEq, Repr

/-- Embedding of `format_row` (scrapeNload.py lines 48–90): reads the raw
date at index 0, the actual at index 2, the forecast at index 3 and the
preliminary marker at the last index, normalizes them, and returns
`[date, forecast, actual, flag]` with the flag true iff the marker is
`"p"`.  A missing index is an `IndexError` (`PyErr.exc`). -/
def format_row (du : String → Option (Nat × Nat × Nat)) (row : List String) :
    PyResult FRow :=
  match row.get? 0, row.get? 2, row.get? 3, row.get? (row.length - 1) with
  | some date_raw, some actual, some forecast, some pm =>
    .ok ⟨normalize_date du date_raw, convert_k_to_number forecast,
      convert_k_to_number actual, pm == "p"⟩
  | _, _, _, _ => .err .exc

/-- A cursor value persisted by `update_config_file`: the scalar `row` or the
parallel `row` list written into `task["row"]`. -/
inductive CursorVal : Type
  | scalar (row : Int)
  | par (rows : List Int)
deriving DecidableEq, Repr

/-- One observable effect of a task run: `persist` models the
`update_config_file` call (which saves the whole configuration with the
updated row), `write` models one `sheet.update_cell(row, col, v)` call. -/
inductive Event : Type
  | persist (c : CursorVal)
  | write (row col : Int) (v : String)
deriving DecidableEq, Repr

/-- Whether an event is a sheet write. -/
def isWriteEvent : Event → Bool
  | .write _ _ _ => true
  | .persist _ => false

/-- The destination sheet as returned by `sheet.get_all_values()`: a grid of
strings (row-major, 0-based lists addressed with 1-based sheet indices). -/
abbrev Grid := List (List String)

/-- Pad a list with a default on the right up to length `n`. -/
def padTo {A : Type} (l : List A) (n : Nat) (dflt : A) : List A :=
  l ++ List.replicate (n - l.length) dflt

/-- Set the 0-based entry `ci` of a row, padding with empty cells. -/
def setAtPad (l : List String) (ci : Nat) (v : String) : List String :=
  (padTo l (ci + 1) "").set ci v

/-- Set a cell by 0-based indices, padding the grid as needed. -/
def setCellNat (g : Grid) (ri ci : Nat) (v : String) : Grid :=
  let g' := padTo g (ri + 1) []
  g'.set ri (setAtPad (g'.getD ri []) ci v)

/-- Model of `sheet.update_cell(r, c, v)` with 1-based sheet coordinates;
writing a (non-empty) value extends the occupied region the next
`get_all_values` returns.  Non-positive coordinates are rejected by the
sheets API; the model leaves the grid unchanged there (no run considered by
the theorems below issues such a write). -/
def setCell (g : Grid) (r c : Int) (v : String) : Grid :=
  if 1 ≤ r ∧ 1 ≤ c then setCellNat g (r - 1).toNat (c - 1).toNat v else g

/-- Apply one event to the sheet grid (persists do not touch the sheet). -/
def applyEvent (g : Grid) : Event → Grid
  | .persist _ => g
  | .write r c v => setCell g r c v

/-- Apply a trace of events to the sheet grid, in order. -/
def applyEvents (tr : List Event) (g : Grid) : Grid :=
  tr.foldl applyEvent g

/-- The two-field layout tag checked by `fields == ["Date", "Actual"]`. -/
def daFields : List String := ["Date", "Actual"]

/-- The scraped tuple a scalar task writes: `[date, actual]` under the
two-field layout, else `[date, forecast, actual]` (the first three entries
of the `format_row` result). -/
def scalarTuple (fields : List String) (t : FRow) : List String :=
  if fields = daFields then [t.date, t.actual] else [t.date, t.forecast, t.actual]

/-- End bound of the existing-row slice: `start_col + 1` for the two-field
layout, the literal `4` otherwise (as in the source). -/
def sliceEnd (fields : List String) (col : Int) : Int :=
  if fields = daFields then col + 1 else 4

/-- Defaults used when the sheet has fewer rows than the addressed row. -/
def sliceDefaults (fields : List String) : List String :=
  if fields = daFields then ["", ""] else ["", "", ""]

/-- Read the existing-row slice for a scalar task at sheet row `r`:
`existing_data[r - 1][col - 1 : sliceEnd]` when the sheet has at least `r`
rows, else the empty-string defaults.  A failing row index (possible only
through negative-index wrapping) is an `IndexError`. -/
def readRowSlice (fields : List String) (existing : Grid) (r col : Int) :
    PyResult (List String) :=
  if (existing.length : Int) ≥ r then
    match pyGet existing (r - 1) with
    | some rowData => .ok (pySlice rowData (col - 1) (sliceEnd fields col))
    | none => .err .exc
  else .ok (sliceDefaults fields)

/-- Normalize a list of existing cells left to right, propagating the first
error (`[normalize_sheet_value(val) for val in ...]`). -/
def normalizeList : List String → PyResult (List String)
  | [] => .ok []
  | v :: vs =>
    match normalize_sheet_value v with
    | .err e => .err e
    | .ok w =>
      match normalizeList vs with
      | .err e => .err e
      | .ok ws => .ok (w :: ws)

/-- The writes issued by `for col_index, cell_value in enumerate(vals):
sheet.update_cell(r, c + col_index, cell_value)` — one write per value at
consecutive columns starting at `c`. -/
def writesFor (r c : Int) : List String → List Event
  | [] => []
  | v :: vs => Event.write r c v :: writesFor r (c + 1) vs

/-- The retroactive pass of the scalar branch (scrapeNload.py lines
317–335): compare the second scraped tuple against the normalized slice at
`prev` and overwrite that row iff they differ.  `acc` is the trace already
emitted by the date branch; on an error the already-issued events are
kept. -/
def scalarRetro (fields : List String) (prev col : Int) (t1 : FRow)
    (existing : Grid) (acc : List Event) : List Event × PyResult Unit :=
  let ss := scalarTuple fields t1
  match readRowSlice fields existing prev col with
  | .err e => (acc, .err e)
  | .ok rawPrev =>
    match normalizeList rawPrev with
    | .err e => (acc, .err e)
    | .ok exPrev =>
      (acc ++ (if ss ≠ exPrev then writesFor prev col ss else []), .ok ())

/-- The scalar-cursor reconciliation of one task (scrapeNload.py lines
263–335): read and normalize the existing slice at the cursor row, compare
dates, then (1) on a newer date persist `row + 1` and write the scraped
tuple at the new row, (0) on an equal date overwrite in place iff the raw
scraped tuple differs from the normalized existing slice, (-1) otherwise
skip the task entirely (`continue`); in the first two cases run the
retroactive pass at the (possibly advanced) preceding row. -/
def runScalar (fields : List String) (row col : Int) (t0 t1 : FRow)
    (existing : Grid) : List Event × PyResult Unit :=
  let fs := scalarTuple fields t0
  match readRowSlice fields existing row col with
  | .err e => ([], .err e)
  | .ok rawFirst =>
    match normalizeList rawFirst with
    | .err e => ([], .err e)
    | .ok exFirst =>
      match exFirst.head? with
      | none => ([], .err .exc)
      | some exDate =>
        let cmp := compare_dates t0.date exDate
        if cmp = 1 then
          scalarRetro fields row col t1 existing
            (Event.persist (.scalar (row + 1)) :: writesFor (row + 1) col fs)
        else if cmp = 0 then
          scalarRetro fields (row - 1) col t1 existing
            (if fs ≠ exFirst then writesFor row col fs else [])
        else ([], .ok ())

/-- One slot of the parallel current pass (scrapeNload.py lines 349–399),
for table rows with index below 2: read and normalize the slot's existing
slice (guarded by `len(existing_data) >= max_row_index`), compare dates,
and either advance this slot (persisting `start_row` with only slot `j`
incremented — a copy of the original list — and writing at the new row),
overwrite in place, or do nothing.  Returns the emitted events and the
updated `max_row_index`. -/
def parSlotCurrent (rows cols : List Int) (existing : Grid) (t : FRow)
    (maxRow : Int) (j : Nat) : PyResult (List Event × Int) :=
  match pyGet rows (j : Int), pyGet cols (j : Int) with
  | some rj, some cj =>
    let values := [t.date, t.actual]
    let raw :=
      if (existing.length : Int) ≥ maxRow then
        match pyGet existing (rj - 1) with
        | some rowData => some (pySlice rowData (cj - 1) (cj + 1))
        | none => none
      else some ["", ""]
    match raw with
    | none => .err .exc
    | some rawVals =>
      match normalizeList rawVals with
      | .err e => .err e
      | .ok exVals =>
        match exVals.head? with
        | none => .err .exc
        | some exDate =>
          let cmp := compare_dates t.date exDate
          if cmp = 1 then
            let new_rows := rows.set j (rj + 1)
            match pyListMax new_rows with
            | some newMax =>
              .ok (Event.persist (.par new_rows) :: writesFor (rj + 1) cj values,
                newMax)
            | none => .err .exc
          else if cmp = 0 then
            .ok ((if values ≠ exVals then writesFor rj cj values else []), maxRow)
          else
            .ok ([], maxRow)
  | _, _ => .err .exc

/-- One slot of the parallel confirmation pass (scrapeNload.py lines
400–417), for table rows with index 2 and above: read and normalize the
slice at `start_row[j] - 2` (guarded by
`len(existing_data) >= max_row_index - 1`) and overwrite row
`start_row[j] - 1` iff the values differ; no date comparison is done. -/
def parSlotConfirm (rows cols : List Int) (existing : Grid) (t : FRow)
    (maxRow : Int) (j : Nat) : PyResult (List Event) :=
  match pyGet rows (j : Int), pyGet cols (j : Int) with
  | some rj, some cj =>
    let values := [t.date, t.actual]
    let raw :=
      if (existing.length : Int) ≥ maxRow - 1 then
        match pyGet existing (rj - 2) with
        | some rowData => some (pySlice rowData (cj - 1) (cj + 1))
        | none => none
      else some ["", ""]
    match raw with
    | none => .err .exc
    | some rawVals =>
      match normalizeList rawVals with
      | .err e => .err e
      | .ok exVals =>
        .ok (if values ≠ exVals then writesFor (rj - 1) cj values else [])
  | _, _ => .err .exc

/-- The slots a table row addresses: the two confirmed-column slots for a
non-preliminary row, the single preliminary slot otherwise
(`row_col_indices = [0, 1] if not p_flag else [2]`). -/
def slotIdxs (t : FRow) : List Nat :=
  if !t.p then [0, 1] else [2]

/-- Run the current pass of one table row over its slot indices, threading
`max_row_index`; an uncaught slot error aborts the task, keeping the events
already emitted by earlier slots. -/
def parRowCurrent (rows cols : List Int) (existing : Grid) (t : FRow) :
    List Nat → Int → List Event × PyResult Int
  | [], maxRow => ([], .ok maxRow)
  | j :: js, maxRow =>
    match parSlotCurrent rows cols existing t maxRow j with
    | .err e => ([], .err e)
    | .ok (evs, maxRow') =>
      let rest := parRowCurrent rows cols existing t js maxRow'
      (evs ++ rest.1, rest.2)

/-- Run the confirmation pass of one table row over its slot indices. -/
def parRowConfirm (rows cols : List Int) (existing : Grid) (t : FRow) :
    List Nat → Int → List Event × PyResult Unit
  | [], _ => ([], .ok ())
  | j :: js, maxRow =>
    match parSlotConfirm rows cols existing t maxRow j with
    | .err e => ([], .err e)
    | .ok evs =>
      let rest := parRowConfirm rows cols existing t js maxRow
      (evs ++ rest.1, rest.2)

/-- The enumerated-table loop of the parallel branch: rows with index 0 and
1 run the current pass (threading `max_row_index`), later rows run the
confirmation pass. -/
def parLoop (rows cols : List Int) (existing : Grid) :
    List (Nat × FRow) → Int → List Event × PyResult Unit
  | [], _ => ([], .ok ())
  | (i, t) :: rest, maxRow =>
    if i < 2 then
      match parRowCurrent rows cols existing t (slotIdxs t) maxRow with
      | (evs, .err e) => (evs, .err e)
      | (evs, .ok maxRow') =>
        let r := parLoop rows cols existing rest maxRow'
        (evs ++ r.1, r.2)
    else
      match parRowConfirm rows cols existing t (slotIdxs t) maxRow with
      | (evs, .err e) => (evs, .err e)
      | (evs, .ok _) =>
        let r := parLoop rows cols existing rest maxRow
        (evs ++ r.1, r.2)

/-- The parallel-cursor reconciliation of one task (scrapeNload.py lines
336–417): `max_row_index = max(start_row)` (a `ValueError` on an empty
list), then the enumerated-table loop. -/
def runPar (rows cols : List Int) (table : List FRow) (existing : Grid) :
    List Event × PyResult Unit :=
  match pyListMax rows with
  | none => ([], .err .exc)
  | some m0 => parLoop rows cols existing table.enum m0

/-- A configuration value that is either a single integer or a list
(`row` and `column` of a task). -/
inductive IntOrList : Type
  | int (i : Int)
  | list (l : List Int)
deriving DecidableEq, Repr

/-- The per-task input of one reconciliation: the task's configuration, the
scraped raw rows (after marker annotation), and the destination grid. -/
structure TaskIn where
  fields : List String
  rowSpec : IntOrList
  colSpec : IntOrList
  raw : List (List String)
  existing : Grid
deriving DecidableEq, Repr

/-- Format all raw rows (`list(map(format_row, table_data))`), propagating
the first error. -/
def formatList (du : String → Option (Nat × Nat × Nat)) :
    List (List String) → PyResult (List FRow)
  | [] => .ok []
  | r :: rs =>
    match format_row du r with
    | .err e => .err e
    | .ok fr =>
      match formatList du rs with
      | .err e => .err e
      | .ok frs => .ok (fr :: frs)

/-- One task of the run (scrapeNload.py lines 252–417): the extraction-shape
check (`sys.exit(1)`, reified fatal, when fewer than 2 rows or an empty row
was extracted), formatting, then the scalar or parallel branch according to
`isinstance(start_row, list)`.  A scalar `row` with a list `column` reaches
the scalar branch and raises a `TypeError` in the slice arithmetic when the
row guard holds (otherwise the defaults compare as -1 and the task skips);
a list `row` with a scalar `column` raises a `TypeError` at the first slot
access. -/
def runTask (du : String → Option (Nat × Nat × Nat)) (t : TaskIn) :
    List Event × PyResult Unit :=
  if t.raw.length < 2 ∨ t.raw.any (fun r => r.length = 0) then ([], .err .fatal)
  else
    match formatList du t.raw with
    | .err e => ([], .err e)
    | .ok table =>
      match t.rowSpec with
      | .int r =>
        match t.colSpec with
        | .int c =>
          match table with
          | t0 :: t1 :: _ => runScalar t.fields r c t0 t1 t.existing
          | _ => ([], .err .exc)
        | .list _ =>
          if (t.existing.length : Int) ≥ r then ([], .err .exc)
          else ([], .ok ())
      | .list rs =>
        match t.colSpec with
        | .list cs => runPar rs cs table t.existing
        | .int _ => ([], .err .exc)

/-- Outcome of processing a task list sequentially. -/
inductive RunOutcome : Type
  | completed (traces : List (List Event))
  | fatalStop (traces : List (List Event))
deriving DecidableEq, Repr

/-- The run over the configured tasks: a task raising an `Exception` is
logged and skipped (`except Exception ... continue`), the next task runs; a
`SystemExit` escapes every handler and stops the whole run with a non-zero
exit status, leaving the remaining tasks unprocessed. -/
def runTasks (du : String → Option (Nat × Nat × Nat)) :
    List TaskIn → RunOutcome
  | [] => .completed []
  | t :: ts =>
    match runTask du t with
    | (tr, .err .fatal) => .fatalStop [tr]
    | (tr, .err .exc) =>
      match runTasks du ts with
      | .completed l => .completed (tr :: l)
      | .fatalStop l => .fatalStop (tr :: l)
    | (tr, .ok _) =>
      match runTasks du ts with
      | .completed l => .completed (tr :: l)
      | .fatalStop l => .fatalStop (tr :: l)

/-- The persisted cursor values of a trace, in order. -/
def persistsOf (tr : List Event) : List CursorVal :=
  tr.filterMap (fun e => match e with | .persist c => some c | _ => none)

/-- The scalar cursor stored in the configuration after a trace: the last
persisted scalar value, or the initial row when nothing was persisted. -/
def cursorAfterScalar (tr : List Event) (r : Int) : Int :=
  tr.foldl (fun acc e => match e with | .persist (.scalar n) => n | _ => acc) r

/-- The parallel cursor stored in the configuration after a trace. -/
def cursorAfterPar (tr : List Event) (rs : List Int) : List Int :=
  tr.foldl (fun acc e => match e with | .persist (.par l) => l | _ => acc) rs

/-- The sheet writes of a trace. -/
def writesOf (tr : List Event) : List Event :=
  tr.filter isWriteEvent

/-- A sequence of scalar runs of one task: each run scrapes its own pair of
observations against its own snapshot of the destination grid, and the
cursor stored by one run is the starting cursor of the next. -/
def scalarRunSeq (fields : List String) (col : Int) :
    List (FRow × FRow × Grid) → Int → Int
  | [], row => row
  | (t0, t1, g) :: rest, row =>
    scalarRunSeq fields col rest
      (cursorAfterScalar (runScalar fields row col t0 t1 g).1 row)

/-- The per-task traces recorded by a run outcome. -/
def tracesOf : RunOutcome → List (List Event)
  | .completed l => l
  | .fatalStop l => l

/-- Whether the run outcome is the non-zero-status termination. -/
def isFatalOutcome : RunOutcome → Bool
  | .completed _ => false
  | .fatalStop _ => true

/-- The 0-based row of the grid (an absent row reads as empty). -/
def rowAtN (g : Grid) (i : Nat) : List String :=
  g.getD i []

/-- Write consecutive cells of one row starting at 0-based column `ci`. -/
def setCells (l : List String) (ci : Nat) : List String → List String
  | [] => l
  | v :: vs => setCells (setAtPad l ci v) (ci + 1) vs

theorem strptimeDMY_empty : strptimeDMY "" = none := rfl

theorem dateLtB_irrefl (x : Nat × Nat × Nat) : dateLtB x x = false := by
  simp [dateLtB]

theorem compare_dates_empty_sheet (d : String) : compare_dates d "" = -1 := by
  unfold compare_dates
  rw [strptimeDMY_empty]
  cases strptimeDMY d <;> rfl

theorem compare_dates_eq_zero {a b : String} (h : compare_dates a b = 0) :
    ∃ x, strptimeDMY a = some x ∧ strptimeDMY b = some x := by
  unfold compare_dates at h
  cases ha : strptimeDMY a with
  | none => rw [ha] at h; cases hb : strptimeDMY b <;> rw [hb] at h <;> simp at h
  | some n =>
    rw [ha] at h
    cases hb : strptimeDMY b with
    | none => rw [hb] at h; simp at h
    | some m =>
      rw [hb] at h
      by_cases hlt : dateLtB m n
      · simp [hlt] at h
      · by_cases heq : n = m
        · exact ⟨n, rfl, by rw [heq]⟩
        · simp [hlt, heq] at h

theorem compare_dates_eq_one {a b : String} (h : compare_dates a b = 1) :
    ∃ n m, strptimeDMY a = some n ∧ strptimeDMY b = some m := by
  unfold compare_dates at h
  cases ha : strptimeDMY a with
  | none => rw [ha] at h; cases hb : strptimeDMY b <;> rw [hb] at h <;> simp at h
  | some n =>
    rw [ha] at h
    cases hb : strptimeDMY b with
    | none => rw [hb] at h; simp at h
    | some m => exact ⟨n, m, rfl, rfl⟩

theorem compare_dates_self {a : String} {x : Nat × Nat × Nat}
    (h : strptimeDMY a = some x) : compare_dates a a = 0 := by
  unfold compare_dates
  rw [h]
  simp [dateLtB_irrefl]

theorem normalize_empty_cell : normalize_sheet_value "" = .ok "" := rfl

theorem normalizeList_fixed {vs : List String}
    (h : ∀ v ∈ vs, normalize_sheet_value v = .ok v) :
    normalizeList vs = .ok vs := by
  induction vs with
  | nil => rfl
  | cons v vs ih =>
    simp only [normalizeList]
    rw [h v (by simp)]
    rw [ih (fun w hw => h w (by simp [hw]))]

theorem normalizeList_head_empty {raw ns : List String}
    (h : normalizeList raw = .ok ns) (hh : raw.head? = some "") :
    ns.head? = some "" := by
  cases raw with
  | nil => simp at hh
  | cons v t =>
    simp only [List.head?_cons, Option.some.injEq] at hh
    subst hh
    simp only [normalizeList, normalize_empty_cell] at h
    cases ht : normalizeList t with
    | ok ws => rw [ht] at h; cases h; rfl
    | err e => rw [ht] at h; cases h

theorem writesFor_isWrite {r c : Int} {vs : List String} :
    ∀ e ∈ writesFor r c vs, isWriteEvent e = true := by
  induction vs generalizing c with
  | nil => intro e he; simp [writesFor] at he
  | cons v vs ih =>
    intro e he
    simp only [writesFor, List.mem_cons] at he
    rcases he with h | h
    · subst h; rfl
    · exact ih e h

theorem persistsOf_of_writes {tr : List Event}
    (h : ∀ e ∈ tr, isWriteEvent e = true) : persistsOf tr = [] := by
  induction tr with
  | nil => rfl
  | cons e tr ih =>
    cases e with
    | persist c =>
      have hc := h (Event.persist c) (List.mem_cons_self _ _)
      simp [isWriteEvent] at hc
    | write r c v =>
      simp only [persistsOf, List.filterMap_cons]
      exact ih (fun e he => h e (by simp [he]))

theorem persistsOf_append (a b : List Event) :
    persistsOf (a ++ b) = persistsOf a ++ persistsOf b := by
  simp [persistsOf]

theorem cursorAfterScalar_of_writes {tr : List Event} {r : Int}
    (h : ∀ e ∈ tr, isWriteEvent e = true) : cursorAfterScalar tr r = r := by
  induction tr generalizing r with
  | nil => rfl
  | cons e tr ih =>
    cases e with
    | persist c =>
      have hc := h (Event.persist c) (List.mem_cons_self _ _)
      simp [isWriteEvent] at hc
    | write rr cc v =>
      simp only [cursorAfterScalar, List.foldl_cons]
      exact ih (fun e he => h e (by simp [he]))

theorem cursorAfterScalar_append_writes {a b : List Event} {r : Int}
    (hb : ∀ e ∈ b, isWriteEvent e = true) :
    cursorAfterScalar (a ++ b) r = cursorAfterScalar a r := by
  induction a generalizing r with
  | nil => simpa [cursorAfterScalar] using cursorAfterScalar_of_writes hb
  | cons e a ih =>
    cases e with
    | persist c =>
      cases c with
      | scalar n =>
        show cursorAfterScalar (a ++ b) n = cursorAfterScalar a n
        exact ih
      | par l =>
        show cursorAfterScalar (a ++ b) r = cursorAfterScalar a r
        exact ih
    | write rr cc v =>
      show cursorAfterScalar (a ++ b) r = cursorAfterScalar a r
      exact ih

theorem scalarRetro_shape (fields : List String) (prev col : Int) (t1 : FRow)
    (existing : Grid) (acc : List Event) :
    ∃ ws, (scalarRetro fields prev col t1 existing acc).1 = acc ++ ws ∧
      ∀ e ∈ ws, isWriteEvent e = true := by
  unfold scalarRetro
  cases hr : readRowSlice fields existing prev col with
  | err e => exact ⟨[], by simp, by simp⟩
  | ok rawPrev =>
    cases hn : normalizeList rawPrev with
    | err e => simp only [hn]; exact ⟨[], by simp, by simp⟩
    | ok exPrev =>
      simp only [hn]
      by_cases hd : scalarTuple fields t1 = exPrev
      · exact ⟨[], by simp [hd], by simp⟩
      · exact ⟨writesFor prev col (scalarTuple fields t1), by simp [hd],
          writesFor_isWrite⟩

theorem readRowSlice_default {fields : List String} {existing : Grid} {row col : Int}
    (h : (existing.length : Int) < row) :
    readRowSlice fields existing row col = .ok (sliceDefaults fields) := by
  unfold readRowSlice
  rw [if_neg (by omega)]

theorem sliceDefaults_head (fields : List String) :
    (sliceDefaults fields).head? = some "" := by
  unfold sliceDefaults
  split <;> rfl

theorem normalizeList_defaults (fields : List String) :
    normalizeList (sliceDefaults fields) = .ok (sliceDefaults fields) := by
  unfold sliceDefaults
  split <;> rfl

theorem scalarRetro_ok {fields : List String} {prev col : Int} {t1 : FRow}
    {existing : Grid} {acc : List Event} {rawPrev exPrev : List String}
    (hr : readRowSlice fields existing prev col = .ok rawPrev)
    (hn : normalizeList rawPrev = .ok exPrev) :
    scalarRetro fields prev col t1 existing acc =
      (acc ++ (if scalarTuple fields t1 = exPrev then []
        else writesFor prev col (scalarTuple fields t1)), .ok ()) := by
  unfold scalarRetro
  simp only [hr, hn, ne_eq, ite_not]

theorem runScalar_older {fields : List String} {row col : Int} {t0 t1 : FRow}
    {existing : Grid} {rawFirst exFirst : List String} {exDate : String}
    (hr : readRowSlice fields existing row col = .ok rawFirst)
    (hn : normalizeList rawFirst = .ok exFirst)
    (hh : exFirst.head? = some exDate)
    (hc1 : compare_dates t0.date exDate ≠ 1)
    (hc0 : compare_dates t0.date exDate ≠ 0) :
    runScalar fields row col t0 t1 existing = ([], .ok ()) := by
  unfold runScalar
  simp only [hr, hn, hh]
  simp [hc1, hc0]

theorem runScalar_newer {fields : List String} {row col : Int} {t0 t1 : FRow}
    {existing : Grid} {rawFirst exFirst : List String} {exDate : String}
    (hr : readRowSlice fields existing row col = .ok rawFirst)
    (hn : normalizeList rawFirst = .ok exFirst)
    (hh : exFirst.head? = some exDate)
    (hc : compare_dates t0.date exDate = 1) :
    runScalar fields row col t0 t1 existing =
      scalarRetro fields row col t1 existing
        (Event.persist (.scalar (row + 1)) ::
          writesFor (row + 1) col (scalarTuple fields t0)) := by
  unfold runScalar
  simp only [hr, hn, hh]
  simp [hc]

theorem runScalar_equal {fields : List String} {row col : Int} {t0 t1 : FRow}
    {existing : Grid} {rawFirst exFirst : List String} {exDate : String}
    (hr : readRowSlice fields existing row col = .ok rawFirst)
    (hn : normalizeList rawFirst = .ok exFirst)
    (hh : exFirst.head? = some exDate)
    (hc : compare_dates t0.date exDate = 0) :
    runScalar fields row col t0 t1 existing =
      scalarRetro fields (row - 1) col t1 existing
        (if scalarTuple fields t0 = exFirst then []
          else writesFor row col (scalarTuple fields t0)) := by
  unfold runScalar
  simp only [hr, hn, hh]
  simp [hc, ne_eq, ite_not]

theorem dateLtB_asymm {a b : Nat × Nat × Nat} (h : dateLtB a b = true) :
    dateLtB b a = false := by
  simp only [dateLtB, decide_eq_true_eq] at h
  simp only [dateLtB, decide_eq_false_iff_not]
  omega

theorem dateLtB_ne {a b : Nat × Nat × Nat} (h : dateLtB a b = true) : a ≠ b := by
  intro he
  subst he
  rw [dateLtB_irrefl] at h
  cases h

theorem compare_dates_of_lt {a b : String} {n s : Nat × Nat × Nat}
    (ha : strptimeDMY a = some n) (hb : strptimeDMY b = some s)
    (h : dateLtB n s = true) : compare_dates a b = -1 := by
  unfold compare_dates
  rw [ha, hb]
  simp [dateLtB_asymm h, dateLtB_ne h]

/-- C10: for a scalar-cursor task, an existing date read as the empty string
always compares as -1; when the destination sheet has fewer rows than the
cursor row the slice defaults to empty strings and the task emits no event
at all (no write, no cursor persist, no retroactive pass); the same holds
whenever the first cell of the read slice is empty. -/
theorem c10_empty_destination_skips :
    (∀ d : String, compare_dates d "" = -1) ∧
    (∀ (fields : List String) (row col : Int) (t0 t1 : FRow) (existing : Grid),
      (existing.length : Int) < row →
      runScalar fields row col t0 t1 existing = ([], .ok ())) ∧
    (∀ (fields : List String) (row col : Int) (t0 t1 : FRow) (existing : Grid)
      (raw : List String),
      readRowSlice fields existing row col = .ok raw →
      raw.head? = some "" →
      (runScalar fields row col t0 t1 existing).1 = []) := by
  refine ⟨compare_dates_empty_sheet, ?_, ?_⟩
  · intro fields row col t0 t1 existing h
    exact runScalar_older (readRowSlice_default h) (normalizeList_defaults fields)
      (sliceDefaults_head fields)
      (by rw [compare_dates_empty_sheet]; decide)
      (by rw [compare_dates_empty_sheet]; decide)
  · intro fields row col t0 t1 existing raw hr hh
    cases hn : normalizeList raw with
    | err e =>
      unfold runScalar
      simp only [hr, hn]
    | ok ns =>
      rw [runScalar_older hr hn (normalizeList_head_empty hn hh)
        (by rw [compare_dates_empty_sheet]; decide)
        (by rw [compare_dates_empty_sheet]; decide)]

theorem c10_empty_destination_skips_witness :
    compare_dates "07/02/2025" "" = -1 ∧
    runScalar daFields 7 1 ⟨"07/02/2025", "a", "b", false⟩
      ⟨"06/01/2025", "c", "d", false⟩ [["x"]] = ([], .ok ()) ∧
    (runScalar daFields 1 1 ⟨"07/02/2025", "a", "b", false⟩
      ⟨"06/01/2025", "c", "d", false⟩ [["", "y"]]).1 = [] :=
  ⟨c10_empty_destination_skips.1 "07/02/2025",
    c10_empty_destination_skips.2.1 daFields 7 1 _ _ [["x"]] (by decide),
    c10_empty_destination_skips.2.2 daFields 1 1 _ _ [["", "y"]] ["", "y"]
      (by decide) (by decide)⟩

/-- C5 (amended): when the newest scraped date is strictly earlier than the
existing date at the cursor, a scalar task emits no event at all, and a
parallel slot's current pass emits no event and leaves the cursor state
unchanged; the parallel confirmation rows, however, are not guarded by any
date comparison (see the counterexample). -/
theorem c5_no_regression_writes_amended :
    (∀ (fields : List String) (row col : Int) (t0 t1 : FRow) (existing : Grid)
      (rawFirst exFirst : List String) (exDate : String) (nd sd : Nat × Nat × Nat),
      readRowSlice fields existing row col = .ok rawFirst →
      normalizeList rawFirst = .ok exFirst →
      exFirst.head? = some exDate →
      strptimeDMY t0.date = some nd →
      strptimeDMY exDate = some sd →
      dateLtB nd sd = true →
      runScalar fields row col t0 t1 existing = ([], .ok ())) ∧
    (∀ (rows cols : List Int) (existing : Grid) (t : FRow) (maxRow : Int)
      (j : Nat) (rj cj : Int) (rowData exVals : List String) (exDate : String)
      (nd sd : Nat × Nat × Nat),
      pyGet rows (j : Int) = some rj →
      pyGet cols (j : Int) = some cj →
      (existing.length : Int) ≥ maxRow →
      pyGet existing (rj - 1) = some rowData →
      normalizeList (pySlice rowData (cj - 1) (cj + 1)) = .ok exVals →
      exVals.head? = some exDate →
      strptimeDMY t.date = some nd →
      strptimeDMY exDate = some sd →
      dateLtB nd sd = true →
      parSlotCurrent rows cols existing t maxRow j = .ok ([], maxRow)) := by
  constructor
  · intro fields row col t0 t1 existing rawFirst exFirst exDate nd sd hr hn hh hpn hps hlt
    have hcmp := compare_dates_of_lt hpn hps hlt
    exact runScalar_older hr hn hh (by rw [hcmp]; decide) (by rw [hcmp]; decide)
  · intro rows cols existing t maxRow j rj cj rowData exVals exDate nd sd
      hjr hjc hg hrow hn hh hpn hps hlt
    have hcmp := compare_dates_of_lt hpn hps hlt
    unfold parSlotCurrent
    simp [hjr, hjc, hg, hrow, hn, hh, hcmp]

/-- C5 counterexample: a parallel task scraped with four table rows whose
current observations (rows 0 and 1) are all strictly earlier than the
existing dates at every slot cursor still issues sheet writes, because the
confirmation rows (indices 2 and 3) overwrite the rows preceding the slot
cursors without any date guard.  The claim "no cell in the destination is
modified" is therefore false for parallel tasks. -/
theorem c5_counterexample :
    compare_dates "01/01/2025" "01/02/2025" = -1 ∧
    compare_dates "01/12/2024" "01/02/2025" = -1 ∧
    runPar [2, 4, 6] [1, 3, 5]
      [⟨"01/01/2025", "f", "10", false⟩, ⟨"01/12/2024", "f", "11", false⟩,
        ⟨"01/12/2024", "f", "8", false⟩, ⟨"01/11/2024", "f", "9", true⟩]
      [["01/12/2024", "7"], ["01/02/2025", "5"], [],
        ["", "", "01/02/2025", "6"], [], []] =
      ([Event.write 1 1 "01/12/2024", Event.write 1 2 "8",
        Event.write 3 3 "01/12/2024", Event.write 3 4 "8",
        Event.write 5 5 "01/11/2024", Event.write 5 6 "9"], .ok ()) := by
  refine ⟨by decide, by decide, ?_⟩
  decide

theorem c5_no_regression_writes_amended_witness :
    runScalar daFields 2 1 ⟨"01/01/2025", "f", "10", false⟩
      ⟨"01/12/2024", "f", "999", false⟩
      [["01/12/2024", "7"], ["01/02/2025", "5"]] = ([], .ok ()) ∧
    parSlotCurrent [2] [1] [["x"], ["01/02/2025", "5"]]
      ⟨"01/01/2025", "f", "10", false⟩ 2 0 = .ok ([], 2) :=
  ⟨c5_no_regression_writes_amended.1 daFields 2 1 _ _ _
      ["01/02/2025", "5"] ["01/02/2025", "5"] "01/02/2025"
      (2025, 1, 1) (2025, 2, 1)
      (by decide) (by decide) (by decide) (by decide) (by decide) (by decide),
    c5_no_regression_writes_amended.2 [2] [1] [["x"], ["01/02/2025", "5"]]
      ⟨"01/01/2025", "f", "10", false⟩ 2 0 2 1
      ["01/02/2025", "5"] ["01/02/2025", "5"] "01/02/2025"
      (2025, 1, 1) (2025, 2, 1)
      (by decide) (by decide) (by decide) (by decide) (by decide) (by decide)
      (by decide) (by decide) (by decide)⟩

/-- C4 (amended): the retroactive pass runs only in the newer-date and
equal-date branches — comparing the second scraped tuple against the
normalized slice at the row preceding the (possibly advanced) cursor and
overwriting iff they differ — while the older/comparison-failure branch
skips the task entirely, issuing no retroactive comparison or write. -/
theorem c4_retroactive_pass_amended :
    (∀ (fields : List String) (row col : Int) (t0 t1 : FRow) (existing : Grid)
      (rawFirst exFirst : List String) (exDate : String),
      readRowSlice fields existing row col = .ok rawFirst →
      normalizeList rawFirst = .ok exFirst →
      exFirst.head? = some exDate →
      compare_dates t0.date exDate = 1 →
      runScalar fields row col t0 t1 existing =
        (Event.persist (.scalar (row + 1)) ::
          (writesFor (row + 1) col (scalarTuple fields t0) ++
            (if scalarTuple fields t1 = exFirst then []
              else writesFor row col (scalarTuple fields t1))), .ok ())) ∧
    (∀ (fields : List String) (row col : Int) (t0 t1 : FRow) (existing : Grid)
      (rawFirst exFirst rawPrev exPrev : List String) (exDate : String),
      readRowSlice fields existing row col = .ok rawFirst →
      normalizeList rawFirst = .ok exFirst →
      exFirst.head? = some exDate →
      compare_dates t0.date exDate = 0 →
      readRowSlice fields existing (row - 1) col = .ok rawPrev →
      normalizeList rawPrev = .ok exPrev →
      runScalar fields row col t0 t1 existing =
        ((if scalarTuple fields t0 = exFirst then []
            else writesFor row col (scalarTuple fields t0)) ++
          (if scalarTuple fields t1 = exPrev then []
            else writesFor (row - 1) col (scalarTuple fields t1)), .ok ())) ∧
    (∀ (fields : List String) (row col : Int) (t0 t1 : FRow) (existing : Grid)
      (rawFirst exFirst : List String) (exDate : String),
      readRowSlice fields existing row col = .ok rawFirst →
      normalizeList rawFirst = .ok exFirst →
      exFirst.head? = some exDate →
      compare_dates t0.date exDate = -1 →
      runScalar fields row col t0 t1 existing = ([], .ok ())) := by
  refine ⟨?_, ?_, ?_⟩
  · intro fields row col t0 t1 existing rawFirst exFirst exDate hr hn hh hc
    rw [runScalar_newer hr hn hh hc, scalarRetro_ok hr hn]
    rfl
  · intro fields row col t0 t1 existing rawFirst exFirst rawPrev exPrev exDate
      hr hn hh hc hrp hnp
    rw [runScalar_equal hr hn hh hc, scalarRetro_ok hrp hnp]
  · intro fields row col t0 t1 existing rawFirst exFirst exDate hr hn hh hc
    exact runScalar_older hr hn hh (by rw [hc]; decide) (by rw [hc]; decide)

theorem c4_retroactive_pass_amended_witness :
    runScalar daFields 2 1 ⟨"07/02/2025", "f", "10", false⟩
      ⟨"06/01/2025", "f", "9", false⟩
      [["01/12/2024", "7"], ["06/01/2025", "5"]] =
      (Event.persist (.scalar 3) ::
        (writesFor 3 1 ["07/02/2025", "10"] ++ writesFor 2 1 ["06/01/2025", "9"]),
        .ok ()) ∧
    runScalar daFields 2 1 ⟨"06/01/2025", "f", "10", false⟩
      ⟨"01/12/2024", "f", "7", false⟩
      [["01/12/2024", "7"], ["06/01/2025", "5"]] =
      (writesFor 2 1 ["06/01/2025", "10"] ++ [], .ok ()) ∧
    runScalar daFields 2 1 ⟨"01/01/2025", "f", "10", false⟩
      ⟨"01/12/2024", "f", "999", false⟩
      [["01/12/2024", "7"], ["01/02/2025", "5"]] = ([], .ok ()) := by
  refine ⟨?_, ?_, ?_⟩
  · have h := c4_retroactive_pass_amended.1 daFields 2 1
      ⟨"07/02/2025", "f", "10", false⟩ ⟨"06/01/2025", "f", "9", false⟩
      [["01/12/2024", "7"], ["06/01/2025", "5"]]
      ["06/01/2025", "5"] ["06/01/2025", "5"] "06/01/2025"
      (by decide) (by decide) (by decide) (by decide)
    rw [h]
    decide
  · have h := c4_retroactive_pass_amended.2.1 daFields 2 1
      ⟨"06/01/2025", "f", "10", false⟩ ⟨"01/12/2024", "f", "7", false⟩
      [["01/12/2024", "7"], ["06/01/2025", "5"]]
      ["06/01/2025", "5"] ["06/01/2025", "5"] ["01/12/2024", "7"]
      ["01/12/2024", "7"] "06/01/2025"
      (by decide) (by decide) (by decide) (by decide) (by decide) (by decide)
    rw [h]
    decide
  · exact c4_retroactive_pass_amended.2.2 daFields 2 1
      ⟨"01/01/2025", "f", "10", false⟩ ⟨"01/12/2024", "f", "999", false⟩
      [["01/12/2024", "7"], ["01/02/2025", "5"]]
      ["01/02/2025", "5"] ["01/02/2025", "5"] "01/02/2025"
      (by decide) (by decide) (by decide) (by decide)

/-- C4 counterexample: in the older-date branch (`compare_dates = -1`) the
task is skipped before the retroactive pass, even though the second scraped
tuple differs from the normalized slice at the row preceding the cursor —
the claim that the retroactive comparison runs regardless of the branch is
false. -/
theorem c4_counterexample :
    runScalar daFields 2 1 ⟨"01/01/2025", "f", "10", false⟩
      ⟨"01/12/2024", "f", "999", false⟩
      [["01/12/2024", "7"], ["01/02/2025", "5"]] = ([], .ok ()) ∧
    compare_dates "01/01/2025" "01/02/2025" = -1 ∧
    readRowSlice daFields [["01/12/2024", "7"], ["01/02/2025", "5"]] 1 1 =
      .ok ["01/12/2024", "7"] ∧
    normalizeList ["01/12/2024", "7"] = .ok ["01/12/2024", "7"] ∧
    scalarTuple daFields ⟨"01/12/2024", "f", "999", false⟩ ≠ ["01/12/2024", "7"] := by
  decide

theorem persist_not_in_writes {tr : List Event}
    (h : ∀ e ∈ tr, isWriteEvent e = true) (n : CursorVal) :
    Event.persist n ∉ tr := by
  intro hm
  have := h _ hm
  simp [isWriteEvent] at this

theorem parSlotCurrent_persist_struct {rows cols : List Int} {existing : Grid}
    {t : FRow} {maxRow : Int} {j : Nat} {evs : List Event} {mR : Int}
    {n : CursorVal}
    (hps : parSlotCurrent rows cols existing t maxRow j = .ok (evs, mR))
    (hmem : Event.persist n ∈ evs) :
    ∃ rj ws, pyGet rows (j : Int) = some rj ∧
      n = .par (rows.set j (rj + 1)) ∧
      evs = Event.persist n :: ws ∧ ∀ e ∈ ws, isWriteEvent e = true := by
  unfold parSlotCurrent at hps
  cases hjr : pyGet rows (j : Int) with
  | none => rw [hjr] at hps; cases hjc : pyGet cols (j : Int) <;> rw [hjc] at hps <;> cases hps
  | some rj =>
    rw [hjr] at hps
    cases hjc : pyGet cols (j : Int) with
    | none => rw [hjc] at hps; cases hps
    | some cj =>
      rw [hjc] at hps
      simp only at hps
      by_cases hg : (existing.length : Int) ≥ maxRow
      · rw [if_pos hg] at hps
        cases hrow : pyGet existing (rj - 1) with
        | none => rw [hrow] at hps; cases hps
        | some rowData =>
          rw [hrow] at hps
          dsimp only at hps
          cases hnv : normalizeList (pySlice rowData (cj - 1) (cj + 1)) with
          | err e => rw [hnv] at hps; cases hps
          | ok exVals =>
            rw [hnv] at hps
            dsimp only at hps
            cases hhd : exVals.head? with
            | none => rw [hhd] at hps; cases hps
            | some exDate =>
              rw [hhd] at hps
              dsimp only at hps
              by_cases hc1 : compare_dates t.date exDate = 1
              · rw [if_pos hc1] at hps
                cases hmx : pyListMax (rows.set j (rj + 1)) with
                | none => rw [hmx] at hps; cases hps
                | some newMax =>
                  rw [hmx] at hps
                  cases hps
                  have hn1 : n = CursorVal.par (rows.set j (rj + 1)) := by
                    rcases List.mem_cons.1 hmem with hme | hme
                    · cases hme; rfl
                    · exact absurd hme (persist_not_in_writes writesFor_isWrite n)
                  exact ⟨rj, writesFor (rj + 1) cj [t.date, t.actual], rfl, hn1,
                    by rw [hn1], writesFor_isWrite⟩
              · rw [if_neg hc1] at hps
                by_cases hc0 : compare_dates t.date exDate = 0
                · rw [if_pos hc0] at hps
                  cases hps
                  by_cases hd : [t.date, t.actual] ≠ exVals
                  · rw [if_pos hd] at hmem
                    exact absurd hmem (persist_not_in_writes writesFor_isWrite n)
                  · rw [if_neg hd] at hmem
                    simp at hmem
                · rw [if_neg hc0] at hps
                  cases hps
                  simp at hmem
      · rw [if_neg hg] at hps
        dsimp only at hps
        cases hnv : normalizeList ["", ""] with
        | err e => rw [hnv] at hps; cases hps
        | ok exVals =>
          rw [hnv] at hps
          dsimp only at hps
          cases hhd : exVals.head? with
          | none => rw [hhd] at hps; cases hps
          | some exDate =>
            rw [hhd] at hps
            dsimp only at hps
            by_cases hc1 : compare_dates t.date exDate = 1
            · rw [if_pos hc1] at hps
              cases hmx : pyListMax (rows.set j (rj + 1)) with
              | none => rw [hmx] at hps; cases hps
              | some newMax =>
                rw [hmx] at hps
                cases hps
                have hn1 : n = CursorVal.par (rows.set j (rj + 1)) := by
                  rcases List.mem_cons.1 hmem with hme | hme
                  · cases hme; rfl
                  · exact absurd hme (persist_not_in_writes writesFor_isWrite n)
                exact ⟨rj, writesFor (rj + 1) cj [t.date, t.actual], rfl, hn1,
                  by rw [hn1], writesFor_isWrite⟩
            · rw [if_neg hc1] at hps
              by_cases hc0 : compare_dates t.date exDate = 0
              · rw [if_pos hc0] at hps
                cases hps
                by_cases hd : [t.date, t.actual] ≠ exVals
                · rw [if_pos hd] at hmem
                  exact absurd hmem (persist_not_in_writes writesFor_isWrite n)
                · rw [if_neg hd] at hmem
                  simp at hmem
              · rw [if_neg hc0] at hps
                cases hps
                simp at hmem


/-- C3: in the newer-date branch the advanced cursor is persisted strictly
before any sheet write: for a scalar task, whenever the trace contains a
persist at all, the persist carries `row + 1`, is the very first event of
the trace, and everything after it is a write; for a parallel slot, whenever
the slot's event list contains a persist, it carries the start-of-run rows
with slot `j` incremented, comes first, and is followed only by writes. -/
theorem c3_persist_before_writes :
    (∀ (fields : List String) (row col : Int) (t0 t1 : FRow) (existing : Grid)
      (n : CursorVal),
      Event.persist n ∈ (runScalar fields row col t0 t1 existing).1 →
      n = .scalar (row + 1) ∧
      ∃ ws, (runScalar fields row col t0 t1 existing).1 =
        Event.persist n :: ws ∧ ∀ e ∈ ws, isWriteEvent e = true) ∧
    (∀ (rows cols : List Int) (existing : Grid) (t : FRow) (maxRow : Int)
      (j : Nat) (evs : List Event) (mR : Int) (n : CursorVal),
      parSlotCurrent rows cols existing t maxRow j = .ok (evs, mR) →
      Event.persist n ∈ evs →
      ∃ rj ws, pyGet rows (j : Int) = some rj ∧
        n = .par (rows.set j (rj + 1)) ∧
        evs = Event.persist n :: ws ∧ ∀ e ∈ ws, isWriteEvent e = true) := by
  constructor
  · intro fields row col t0 t1 existing n hmem
    cases hr : readRowSlice fields existing row col with
    | err e =>
      unfold runScalar at hmem
      rw [hr] at hmem
      simp at hmem
    | ok rawFirst =>
      cases hn : normalizeList rawFirst with
      | err e =>
        unfold runScalar at hmem
        rw [hr] at hmem
        simp only [hn] at hmem
        simp at hmem
      | ok exFirst =>
        cases hh : exFirst.head? with
        | none =>
          unfold runScalar at hmem
          rw [hr] at hmem
          simp only [hn, hh] at hmem
          simp at hmem
        | some exDate =>
          by_cases hc1 : compare_dates t0.date exDate = 1
          · rw [runScalar_newer hr hn hh hc1] at hmem ⊢
            obtain ⟨ws, hws, hwr⟩ := scalarRetro_shape fields row col t1 existing
              (Event.persist (.scalar (row + 1)) ::
                writesFor (row + 1) col (scalarTuple fields t0))
            rw [hws] at hmem ⊢
            have hn1 : n = CursorVal.scalar (row + 1) := by
              rcases List.mem_append.1 hmem with hma | hma
              · rcases List.mem_cons.1 hma with hme | hme
                · cases hme; rfl
                · exact absurd hme (persist_not_in_writes writesFor_isWrite n)
              · exact absurd hma (persist_not_in_writes hwr n)
            refine ⟨hn1, writesFor (row + 1) col (scalarTuple fields t0) ++ ws, ?_, ?_⟩
            · rw [hn1]; simp
            · intro e he
              rcases List.mem_append.1 he with hma | hma
              · exact writesFor_isWrite e hma
              · exact hwr e hma
          · by_cases hc0 : compare_dates t0.date exDate = 0
            · rw [runScalar_equal hr hn hh hc0] at hmem
              obtain ⟨ws, hws, hwr⟩ := scalarRetro_shape fields (row - 1) col t1
                existing (if scalarTuple fields t0 = exFirst then []
                  else writesFor row col (scalarTuple fields t0))
              rw [hws] at hmem
              rcases List.mem_append.1 hmem with hma | hma
              · by_cases hd : scalarTuple fields t0 = exFirst
                · simp [hd] at hma
                · rw [if_neg hd] at hma
                  exact absurd hma (persist_not_in_writes writesFor_isWrite n)
              · exact absurd hma (persist_not_in_writes hwr n)
            · rw [runScalar_older hr hn hh hc1 hc0] at hmem
              simp at hmem
  · intro rows cols existing t maxRow j evs mR n hps hmem
    exact parSlotCurrent_persist_struct hps hmem

theorem c3_persist_before_writes_witness :
    (CursorVal.scalar 3 = CursorVal.scalar (2 + 1) ∧
      ∃ ws, (runScalar daFields 2 1 ⟨"07/02/2025", "f", "10", false⟩
        ⟨"06/01/2025", "f", "9", false⟩
        [["01/12/2024", "7"], ["06/01/2025", "5"]]).1 =
          Event.persist (CursorVal.scalar 3) :: ws ∧
        ∀ e ∈ ws, isWriteEvent e = true) ∧
    (∃ rj ws, pyGet [(2 : Int)] ((0 : Nat) : Int) = some rj ∧
      CursorVal.par [3] = CursorVal.par ([(2 : Int)].set 0 (rj + 1)) ∧
      [Event.persist (CursorVal.par [3]), Event.write 3 1 "07/02/2025",
        Event.write 3 2 "10"] = Event.persist (CursorVal.par [3]) :: ws ∧
      ∀ e ∈ ws, isWriteEvent e = true) :=
  ⟨c3_persist_before_writes.1 daFields 2 1 ⟨"07/02/2025", "f", "10", false⟩
      ⟨"06/01/2025", "f", "9", false⟩
      [["01/12/2024", "7"], ["06/01/2025", "5"]] (CursorVal.scalar 3) (by decide),
    c3_persist_before_writes.2 [(2 : Int)] [(1 : Int)]
      [["x"], ["06/01/2025", "5"]] ⟨"07/02/2025", "f", "10", false⟩ 2 0
      [Event.persist (CursorVal.par [3]), Event.write 3 1 "07/02/2025",
        Event.write 3 2 "10"] 3 (CursorVal.par [3]) (by decide) (by decide)⟩

theorem pyGet_natCast {A : Type} (l : List A) (j : Nat) :
    pyGet l ((j : Nat) : Int) = l.get? j := by
  unfold pyGet
  dsimp only
  rw [if_neg (show ¬ ((j : Int) < 0) by omega)]
  by_cases h : (j : Int) < (l.length : Int)
  · rw [if_pos ⟨by omega, h⟩]
    simp
  · rw [if_neg (fun hc => h hc.2)]
    rw [eq_comm, List.get?_eq_none]
    omega

theorem mem_persistsOf {tr : List Event} {c : CursorVal} :
    c ∈ persistsOf tr ↔ Event.persist c ∈ tr := by
  simp only [persistsOf, List.mem_filterMap]
  constructor
  · rintro ⟨e, he, hf⟩
    cases e with
    | persist d => simp at hf; subst hf; exact he
    | write r cc v => simp at hf
  · intro h
    exact ⟨Event.persist c, h, rfl⟩

theorem cursorAfterScalar_persists (tr : List Event) (r : Int) :
    cursorAfterScalar tr r =
      (persistsOf tr).foldl
        (fun acc c => match c with | .scalar n => n | _ => acc) r := by
  induction tr generalizing r with
  | nil => rfl
  | cons e tr ih =>
    cases e with
    | persist c =>
      cases c with
      | scalar n =>
        show cursorAfterScalar tr n = _
        rw [ih]
        rfl
      | par l =>
        show cursorAfterScalar tr r = _
        rw [ih]
        rfl
    | write rr cc v =>
      show cursorAfterScalar tr r = _
      rw [ih]
      rfl

theorem cursorAfterPar_persists (tr : List Event) (rs : List Int) :
    cursorAfterPar tr rs =
      (persistsOf tr).foldl
        (fun acc c => match c with | .par l => l | _ => acc) rs := by
  induction tr generalizing rs with
  | nil => rfl
  | cons e tr ih =>
    cases e with
    | persist c =>
      cases c with
      | scalar n =>
        show cursorAfterPar tr rs = _
        rw [ih]
        rfl
      | par l =>
        show cursorAfterPar tr l = _
        rw [ih]
        rfl
    | write rr cc v =>
      show cursorAfterPar tr rs = _
      rw [ih]
      rfl

theorem cursorAfterPar_mem (tr : List Event) (rs : List Int) :
    cursorAfterPar tr rs = rs ∨
      Event.persist (CursorVal.par (cursorAfterPar tr rs)) ∈ tr := by
  induction tr generalizing rs with
  | nil => exact Or.inl rfl
  | cons e tr ih =>
    cases e with
    | persist c =>
      cases c with
      | scalar n =>
        rcases ih rs with h | h
        · exact Or.inl h
        · exact Or.inr (List.mem_cons_of_mem _ h)
      | par l =>
        rcases ih l with h | h
        · refine Or.inr ?_
          have hl : cursorAfterPar (Event.persist (CursorVal.par l) :: tr) rs = l := h
          rw [hl]
          exact List.mem_cons_self _ _
        · exact Or.inr (List.mem_cons_of_mem _ h)
    | write rr cc v =>
      rcases ih rs with h | h
      · exact Or.inl h
      · exact Or.inr (List.mem_cons_of_mem _ h)

theorem runScalar_trace_cases (fields : List String) (row col : Int)
    (t0 t1 : FRow) (existing : Grid) :
    (∀ e ∈ (runScalar fields row col t0 t1 existing).1, isWriteEvent e = true) ∨
    (∃ ws, (runScalar fields row col t0 t1 existing).1 =
      Event.persist (.scalar (row + 1)) :: ws ∧
      ∀ e ∈ ws, isWriteEvent e = true) := by
  cases hr : readRowSlice fields existing row col with
  | err e =>
    left
    unfold runScalar
    rw [hr]
    simp
  | ok rawFirst =>
    cases hn : normalizeList rawFirst with
    | err e =>
      left
      unfold runScalar
      rw [hr]
      simp only [hn]
      simp
    | ok exFirst =>
      cases hh : exFirst.head? with
      | none =>
        left
        unfold runScalar
        rw [hr]
        simp only [hn, hh]
        simp
      | some exDate =>
        by_cases hc1 : compare_dates t0.date exDate = 1
        · right
          rw [runScalar_newer hr hn hh hc1]
          obtain ⟨ws, hws, hwr⟩ := scalarRetro_shape fields row col t1 existing
            (Event.persist (.scalar (row + 1)) ::
              writesFor (row + 1) col (scalarTuple fields t0))
          rw [hws]
          refine ⟨writesFor (row + 1) col (scalarTuple fields t0) ++ ws, by simp, ?_⟩
          intro e he
          rcases List.mem_append.1 he with h | h
          · exact writesFor_isWrite e h
          · exact hwr e h
        · by_cases hc0 : compare_dates t0.date exDate = 0
          · left
            rw [runScalar_equal hr hn hh hc0]
            obtain ⟨ws, hws, hwr⟩ := scalarRetro_shape fields (row - 1) col t1
              existing (if scalarTuple fields t0 = exFirst then []
                else writesFor row col (scalarTuple fields t0))
            rw [hws]
            intro e he
            rcases List.mem_append.1 he with h | h
            · by_cases hd : scalarTuple fields t0 = exFirst
              · simp [hd] at h
              · rw [if_neg hd] at h
                exact writesFor_isWrite e h
            · exact hwr e h
          · left
            rw [runScalar_older hr hn hh hc1 hc0]
            simp


theorem parSlotConfirm_writes {rows cols : List Int} {existing : Grid}
    {t : FRow} {maxRow : Int} {j : Nat} {evs : List Event}
    (h : parSlotConfirm rows cols existing t maxRow j = .ok evs) :
    ∀ e ∈ evs, isWriteEvent e = true := by
  unfold parSlotConfirm at h
  cases hjr : pyGet rows (j : Int) with
  | none => rw [hjr] at h; cases hjc : pyGet cols (j : Int) <;> rw [hjc] at h <;> cases h
  | some rj =>
    rw [hjr] at h
    cases hjc : pyGet cols (j : Int) with
    | none => rw [hjc] at h; cases h
    | some cj =>
      rw [hjc] at h
      dsimp only at h
      by_cases hg : (existing.length : Int) ≥ maxRow - 1
      · rw [if_pos hg] at h
        cases hrow : pyGet existing (rj - 2) with
        | none => rw [hrow] at h; cases h
        | some rowData =>
          rw [hrow] at h
          dsimp only at h
          cases hnv : normalizeList (pySlice rowData (cj - 1) (cj + 1)) with
          | err e => rw [hnv] at h; cases h
          | ok exVals =>
            rw [hnv] at h
            dsimp only at h
            cases h
            split
            · exact writesFor_isWrite
            · simp
      · rw [if_neg hg] at h
        dsimp only at h
        cases hnv : normalizeList ["", ""] with
        | err e => rw [hnv] at h; cases h
        | ok exVals =>
          rw [hnv] at h
          dsimp only at h
          cases h
          split
          · exact writesFor_isWrite
          · simp

theorem parRowCurrent_persists {rows cols : List Int} {existing : Grid}
    {t : FRow} {js : List Nat} {maxRow : Int} {evs : List Event}
    {res : PyResult Int}
    (h : parRowCurrent rows cols existing t js maxRow = (evs, res))
    {n : CursorVal} (hmem : Event.persist n ∈ evs) :
    ∃ j rj, pyGet rows ((j : Nat) : Int) = some rj ∧
      n = .par (rows.set j (rj + 1)) := by
  induction js generalizing maxRow evs res with
  | nil =>
    unfold parRowCurrent at h
    cases h
    simp at hmem
  | cons j js ih =>
    unfold parRowCurrent at h
    cases hsl : parSlotCurrent rows cols existing t maxRow j with
    | err e =>
      rw [hsl] at h
      cases h
      simp at hmem
    | ok p =>
      obtain ⟨evs1, maxRow1⟩ := p
      rw [hsl] at h
      dsimp only at h
      cases hrest : parRowCurrent rows cols existing t js maxRow1 with
      | mk evs2 res2 =>
        rw [hrest] at h
        cases h
        rcases List.mem_append.1 hmem with hma | hma
        · obtain ⟨rj, ws, hjr, hn, _, _⟩ := parSlotCurrent_persist_struct hsl hma
          exact ⟨j, rj, hjr, hn⟩
        · exact ih hrest hma

theorem parRowConfirm_writes {rows cols : List Int} {existing : Grid}
    {t : FRow} {js : List Nat} {maxRow : Int} {evs : List Event}
    {res : PyResult Unit}
    (h : parRowConfirm rows cols existing t js maxRow = (evs, res)) :
    ∀ e ∈ evs, isWriteEvent e = true := by
  induction js generalizing evs res with
  | nil =>
    unfold parRowConfirm at h
    cases h
    simp
  | cons j js ih =>
    unfold parRowConfirm at h
    cases hsl : parSlotConfirm rows cols existing t maxRow j with
    | err e =>
      rw [hsl] at h
      cases h
      simp
    | ok evs1 =>
      rw [hsl] at h
      dsimp only at h
      cases hrest : parRowConfirm rows cols existing t js maxRow with
      | mk evs2 res2 =>
        rw [hrest] at h
        cases h
        intro e he
        rcases List.mem_append.1 he with hma | hma
        · exact parSlotConfirm_writes hsl e hma
        · exact ih hrest e hma

theorem parLoop_persists {rows cols : List Int} {existing : Grid}
    {l : List (Nat × FRow)} {maxRow : Int} {evs : List Event}
    {res : PyResult Unit}
    (h : parLoop rows cols existing l maxRow = (evs, res))
    {n : CursorVal} (hmem : Event.persist n ∈ evs) :
    ∃ j rj, pyGet rows ((j : Nat) : Int) = some rj ∧
      n = .par (rows.set j (rj + 1)) := by
  induction l generalizing maxRow evs res with
  | nil =>
    unfold parLoop at h
    cases h
    simp at hmem
  | cons p l ih =>
    obtain ⟨i, t⟩ := p
    unfold parLoop at h
    by_cases hi : i < 2
    · rw [if_pos hi] at h
      cases hrc : parRowCurrent rows cols existing t (slotIdxs t) maxRow with
      | mk evs1 res1 =>
        rw [hrc] at h
        cases res1 with
        | err e =>
          dsimp only at h
          cases h
          exact parRowCurrent_persists hrc hmem
        | ok maxRow1 =>
          dsimp only at h
          cases hrest : parLoop rows cols existing l maxRow1 with
          | mk evs2 res2 =>
            rw [hrest] at h
            cases h
            rcases List.mem_append.1 hmem with hma | hma
            · exact parRowCurrent_persists hrc hma
            · exact ih hrest hma
    · rw [if_neg hi] at h
      cases hrc : parRowConfirm rows cols existing t (slotIdxs t) maxRow with
      | mk evs1 res1 =>
        rw [hrc] at h
        cases res1 with
        | err e =>
          dsimp only at h
          cases h
          exact absurd hmem (persist_not_in_writes (parRowConfirm_writes hrc) n)
        | ok u =>
          dsimp only at h
          cases hrest : parLoop rows cols existing l maxRow with
          | mk evs2 res2 =>
            rw [hrest] at h
            cases h
            rcases List.mem_append.1 hmem with hma | hma
            · exact absurd hma (persist_not_in_writes (parRowConfirm_writes hrc) n)
            · exact ih hrest hma

theorem runPar_persists {rows cols : List Int} {table : List FRow}
    {existing : Grid} {n : CursorVal}
    (hmem : Event.persist n ∈ (runPar rows cols table existing).1) :
    ∃ j rj, pyGet rows ((j : Nat) : Int) = some rj ∧
      n = .par (rows.set j (rj + 1)) := by
  unfold runPar at hmem
  cases hm : pyListMax rows with
  | none => rw [hm] at hmem; simp at hmem
  | some m0 =>
    rw [hm] at hmem
    dsimp only at hmem
    cases hl : parLoop rows cols existing table.enum m0 with
    | mk evs res =>
      rw [hl] at hmem
      exact parLoop_persists hl hmem


/-- C2 (amended): a scalar task's run persists either nothing or exactly
`row + 1`, so the stored scalar cursor never decreases across any sequence
of runs; a parallel task's every persisted value is the start-of-run row
list with exactly one slot incremented by one — computed from the
start-of-run list, not from the previously persisted one — so the row list
stored at the end of a run is slot-wise at least the start-of-run list, but
a later advance in the same run reverts an earlier slot's persisted
advance (see the counterexample). -/
theorem c2_monotonic_cursor_amended :
    (∀ (fields : List String) (row col : Int) (t0 t1 : FRow) (existing : Grid),
      persistsOf (runScalar fields row col t0 t1 existing).1 = [] ∨
      persistsOf (runScalar fields row col t0 t1 existing).1 =
        [CursorVal.scalar (row + 1)]) ∧
    (∀ (fields : List String) (row col : Int) (t0 t1 : FRow) (existing : Grid),
      row ≤ cursorAfterScalar (runScalar fields row col t0 t1 existing).1 row) ∧
    (∀ (fields : List String) (col : Int) (runs : List (FRow × FRow × Grid))
      (row : Int), row ≤ scalarRunSeq fields col runs row) ∧
    (∀ (rows cols : List Int) (table : List FRow) (existing : Grid)
      (nr : List Int),
      CursorVal.par nr ∈ persistsOf (runPar rows cols table existing).1 →
      ∃ j rj, pyGet rows ((j : Nat) : Int) = some rj ∧
        nr = rows.set j (rj + 1)) ∧
    (∀ (rows cols : List Int) (table : List FRow) (existing : Grid)
      (k : Nat) (rk : Int),
      rows.get? k = some rk →
      ∃ v, (cursorAfterPar (runPar rows cols table existing).1 rows).get? k =
        some v ∧ rk ≤ v) := by
  refine ⟨?_, ?_, ?_, ?_, ?_⟩
  · intro fields row col t0 t1 existing
    rcases runScalar_trace_cases fields row col t0 t1 existing with h | ⟨ws, hws, hwr⟩
    · exact Or.inl (persistsOf_of_writes h)
    · right
      rw [hws]
      show CursorVal.scalar (row + 1) :: persistsOf ws = _
      rw [persistsOf_of_writes hwr]
  · intro fields row col t0 t1 existing
    rcases runScalar_trace_cases fields row col t0 t1 existing with h | ⟨ws, hws, hwr⟩
    · rw [cursorAfterScalar_of_writes h]
    · rw [hws]
      show row ≤ cursorAfterScalar ws (row + 1)
      rw [cursorAfterScalar_of_writes hwr]
      omega
  · intro fields col runs
    induction runs with
    | nil => intro row; exact le_refl row
    | cons r runs ih =>
      intro row
      obtain ⟨t0, t1, g⟩ := r
      have h1 : row ≤ cursorAfterScalar (runScalar fields row col t0 t1 g).1 row := by
        rcases runScalar_trace_cases fields row col t0 t1 g with h | ⟨ws, hws, hwr⟩
        · rw [cursorAfterScalar_of_writes h]
        · rw [hws]
          show row ≤ cursorAfterScalar ws (row + 1)
          rw [cursorAfterScalar_of_writes hwr]
          omega
      exact le_trans h1 (ih _)
  · intro rows cols table existing nr hmem
    obtain ⟨j, rj, hjr, hn⟩ := runPar_persists (mem_persistsOf.1 hmem)
    cases hn
    exact ⟨j, rj, hjr, rfl⟩
  · intro rows cols table existing k rk hk
    rcases cursorAfterPar_mem (runPar rows cols table existing).1 rows with h | h
    · exact ⟨rk, by rw [h, hk], le_refl rk⟩
    · obtain ⟨j, rj, hjr, hn⟩ := runPar_persists h
      rw [pyGet_natCast] at hjr
      have hn2 : cursorAfterPar (runPar rows cols table existing).1 rows =
          rows.set j (rj + 1) := by injection hn
      rw [hn2]
      by_cases hkj : j = k
      · subst hkj
        have hrr : rj = rk := by rw [hjr] at hk; exact Option.some.inj hk
        subst hrr
        refine ⟨rj + 1, ?_, by omega⟩
        rw [List.get?_set_eq, hjr]
        rfl
      · refine ⟨rk, ?_, le_refl rk⟩
        rw [List.get?_set_ne _ _ hkj, hk]

/-- C2 counterexample: in one parallel run in which both non-preliminary
slots advance, the configuration is persisted twice — first `[4, 5, 7]`,
then `[3, 6, 7]` — so the second mutation rewrites slot 0's stored row from
4 back down to 3 (each advance is computed from the start-of-run list);
the stored row component is decremented, refuting the claim that every
mutation only increments by one and never decrements. -/
theorem c2_counterexample :
    persistsOf (runPar [3, 5, 7] [1, 3, 5]
      [⟨"02/01/2025", "f", "100", false⟩, ⟨"01/12/2024", "f", "0", false⟩]
      [[], [], ["01/01/2025", "99"], [], ["", "", "01/01/2025", "88"], [], []]).1 =
      [CursorVal.par [4, 5, 7], CursorVal.par [3, 6, 7]] ∧
    cursorAfterPar (runPar [3, 5, 7] [1, 3, 5]
      [⟨"02/01/2025", "f", "100", false⟩, ⟨"01/12/2024", "f", "0", false⟩]
      [[], [], ["01/01/2025", "99"], [], ["", "", "01/01/2025", "88"], [], []]).1
      [3, 5, 7] = [3, 6, 7] ∧
    ¬ ((4 : Int) ≤ 3) := by
  refine ⟨by decide, by decide, by decide⟩

theorem c2_monotonic_cursor_amended_witness :
    (persistsOf (runScalar daFields 2 1 ⟨"07/02/2025", "f", "10", false⟩
        ⟨"06/01/2025", "f", "9", false⟩
        [["01/12/2024", "7"], ["06/01/2025", "5"]]).1 = [] ∨
      persistsOf (runScalar daFields 2 1 ⟨"07/02/2025", "f", "10", false⟩
        ⟨"06/01/2025", "f", "9", false⟩
        [["01/12/2024", "7"], ["06/01/2025", "5"]]).1 =
        [CursorVal.scalar (2 + 1)]) ∧
    (2 : Int) ≤ cursorAfterScalar (runScalar daFields 2 1
      ⟨"07/02/2025", "f", "10", false⟩ ⟨"06/01/2025", "f", "9", false⟩
      [["01/12/2024", "7"], ["06/01/2025", "5"]]).1 2 ∧
    (4 : Int) ≤ scalarRunSeq daFields 1
      [(⟨"07/02/2025", "f", "10", false⟩, ⟨"06/01/2025", "f", "9", false⟩,
        [["01/12/2024", "7"], ["06/01/2025", "5"]])] 4 ∧
    (∃ j rj, pyGet [(3 : Int), 5, 7] ((j : Nat) : Int) = some rj ∧
      [(4 : Int), 5, 7] = [(3 : Int), 5, 7].set j (rj + 1)) ∧
    (∃ v, (cursorAfterPar (runPar [3, 5, 7] [1, 3, 5]
      [⟨"02/01/2025", "f", "100", false⟩, ⟨"01/12/2024", "f", "0", false⟩]
      [[], [], ["01/01/2025", "99"], [], ["", "", "01/01/2025", "88"], [], []]).1
      [3, 5, 7]).get? 1 = some v ∧ (5 : Int) ≤ v) :=
  ⟨c2_monotonic_cursor_amended.1 daFields 2 1 _ _ _,
    c2_monotonic_cursor_amended.2.1 daFields 2 1 _ _ _,
    c2_monotonic_cursor_amended.2.2.1 daFields 1 _ 4,
    c2_monotonic_cursor_amended.2.2.2.1 [3, 5, 7] [1, 3, 5]
      [⟨"02/01/2025", "f", "100", false⟩, ⟨"01/12/2024", "f", "0", false⟩]
      [[], [], ["01/01/2025", "99"], [], ["", "", "01/01/2025", "88"], [], []]
      [4, 5, 7] (by decide),
    c2_monotonic_cursor_amended.2.2.2.2 [3, 5, 7] [1, 3, 5]
      [⟨"02/01/2025", "f", "100", false⟩, ⟨"01/12/2024", "f", "0", false⟩]
      [[], [], ["01/01/2025", "99"], [], ["", "", "01/01/2025", "88"], [], []]
      1 5 (by decide)⟩

/-- C6 (amended): every cursor value persisted by a parallel run is the
start-of-run row list with exactly one slot incremented by one; in that
persisted value every other slot still holds its start-of-run row (one
slot's advance never writes another slot's value).  However, because each
advance is computed from the start-of-run list, when several slots advance
in one run only the last advance survives in the stored configuration: an
earlier advanced slot's stored row is reverted to its start-of-run value
rather than kept at its previous value plus one (see the counterexample). -/
theorem c6_parallel_slot_frame_amended :
    ∀ (rows cols : List Int) (table : List FRow) (existing : Grid)
      (nr : List Int),
      CursorVal.par nr ∈ persistsOf (runPar rows cols table existing).1 →
      ∃ j rj, pyGet rows ((j : Nat) : Int) = some rj ∧
        nr = rows.set j (rj + 1) ∧
        nr.get? j = some (rj + 1) ∧
        ∀ k, k ≠ j → nr.get? k = rows.get? k := by
  intro rows cols table existing nr hmem
  obtain ⟨j, rj, hjr, hn⟩ := runPar_persists (mem_persistsOf.1 hmem)
  have hn2 : nr = rows.set j (rj + 1) := by injection hn
  subst hn2
  have hjr2 : rows.get? j = some rj := by rw [pyGet_natCast] at hjr; exact hjr
  refine ⟨j, rj, hjr, rfl, ?_, ?_⟩
  · rw [List.get?_set_eq, hjr2]
    rfl
  · intro k hkj
    exact List.get?_set_ne _ _ (fun h => hkj h.symm)

/-- C6 counterexample: a parallel run in which both non-preliminary slots
advance persists `[3, 4, 6]` and then `[2, 5, 6]`; the configuration stored
at the end of the run is `[2, 5, 6]`, so slot 0 — which did advance during
the run — ends with stored row 2, not its previous value plus one (3).  The
claim that after a run with several advances each advanced slot's stored
row is its previous value plus one is false. -/
theorem c6_counterexample :
    persistsOf (runPar [2, 4, 6] [1, 3, 5]
      [⟨"02/01/2025", "f", "100", false⟩, ⟨"01/12/2024", "f", "0", false⟩]
      [[], ["01/01/2025", "99"], [], ["", "", "01/01/2025", "88"], [], []]).1 =
      [CursorVal.par [3, 4, 6], CursorVal.par [2, 5, 6]] ∧
    cursorAfterPar (runPar [2, 4, 6] [1, 3, 5]
      [⟨"02/01/2025", "f", "100", false⟩, ⟨"01/12/2024", "f", "0", false⟩]
      [[], ["01/01/2025", "99"], [], ["", "", "01/01/2025", "88"], [], []]).1
      [2, 4, 6] = [2, 5, 6] ∧
    ¬ ((2 : Int) = 2 + 1) := by
  refine ⟨by decide, by decide, by decide⟩

theorem c6_parallel_slot_frame_amended_witness :
    ∃ j rj, pyGet [(2 : Int), 4, 6] ((j : Nat) : Int) = some rj ∧
      [(3 : Int), 4, 6] = [(2 : Int), 4, 6].set j (rj + 1) ∧
      [(3 : Int), 4, 6].get? j = some (rj + 1) ∧
      ∀ k, k ≠ j → [(3 : Int), 4, 6].get? k = [(2 : Int), 4, 6].get? k :=
  c6_parallel_slot_frame_amended [2, 4, 6] [1, 3, 5]
    [⟨"02/01/2025", "f", "100", false⟩, ⟨"01/12/2024", "f", "0", false⟩]
    [[], ["01/01/2025", "99"], [], ["", "", "01/01/2025", "88"], [], []]
    [3, 4, 6] (by decide)

/-- C9 counterexample: `format_row` applied to a three-cell raw row raises
an `IndexError` (reading index 3), so the claim that it never raises on
every raw extracted row is false; the extraction shape check only enforces
at least two non-empty rows, not four cells per row. -/
theorem c9_counterexample :
    format_row (fun _ => none) ["a", "b", "c"] = .err .exc := rfl

/-- C9 (amended): on every raw row with at least four cells `format_row`
never raises: it returns the four-component observation built from the date
at index 0, the forecast at index 3, the actual at index 2 and the
last-cell preliminary marker, with the flag true iff that marker is `"p"`;
and when the date parser fails on the cleaned date the original date string
is returned unchanged. -/
theorem c9_format_row_total_amended :
    ∀ (du : String → Option (Nat × Nat × Nat)) (row : List String),
      4 ≤ row.length →
      ∃ d a f pm, row.get? 0 = some d ∧ row.get? 2 = some a ∧
        row.get? 3 = some f ∧ row.get? (row.length - 1) = some pm ∧
        format_row du row = .ok ⟨normalize_date du d, convert_k_to_number f,
          convert_k_to_number a, pm == "p"⟩ ∧
        (du (cleanedDate d) = none → normalize_date du d = d) := by
  intro du row hlen
  have h0 : row.get? 0 = some (row.get ⟨0, by omega⟩) := List.get?_eq_get _
  have h2 : row.get? 2 = some (row.get ⟨2, by omega⟩) := List.get?_eq_get _
  have h3 : row.get? 3 = some (row.get ⟨3, by omega⟩) := List.get?_eq_get _
  have hp : row.get? (row.length - 1) =
      some (row.get ⟨row.length - 1, by omega⟩) := List.get?_eq_get _
  refine ⟨_, _, _, _, h0, h2, h3, hp, ?_, ?_⟩
  · unfold format_row
    rw [h0, h2, h3, hp]
  · intro hdu
    unfold normalize_date
    rw [hdu]

theorem c9_format_row_total_amended_witness :
    ∃ d a f pm,
      ["07.02.2025 (Gen)", "x", "143K", "169K", "p"].get? 0 = some d ∧
      ["07.02.2025 (Gen)", "x", "143K", "169K", "p"].get? 2 = some a ∧
      ["07.02.2025 (Gen)", "x", "143K", "169K", "p"].get? 3 = some f ∧
      ["07.02.2025 (Gen)", "x", "143K", "169K", "p"].get?
        (["07.02.2025 (Gen)", "x", "143K", "169K", "p"].length - 1) = some pm ∧
      format_row (fun _ => none) ["07.02.2025 (Gen)", "x", "143K", "169K", "p"] =
        .ok ⟨normalize_date (fun _ => none) d, convert_k_to_number f,
          convert_k_to_number a, pm == "p"⟩ ∧
      ((fun _ => none : String → Option (Nat × Nat × Nat)) (cleanedDate d) = none →
        normalize_date (fun _ => none) d = d) :=
  c9_format_row_total_amended (fun _ => none)
    ["07.02.2025 (Gen)", "x", "143K", "169K", "p"] (by decide)

/-- C7: the fatality split.  (1) A percentage-suffixed cell whose numeric
portion fails to parse as a float makes `normalize_sheet_value` call
`sys.exit(1)` — the reified fatal error; (2) such a fatal error during the
normalization of the existing slice aborts the scalar reconciliation with
the fatal error (no handler catches it); (3) a raw row with fewer than four
cells makes `format_row` raise an ordinary `Exception`; (4) a task ending
fatally stops the whole run at that task — the remaining tasks are not
processed and the outcome is the non-zero-status stop; (5) a task raising
an ordinary `Exception` is skipped and the rest of the run proceeds exactly
as the run over the remaining tasks. -/
theorem c7_fatality_split :
    (∀ v : String, pyEndsWith (pyStrip v) "%" = true →
      pyFloat (pyReplace (pyDropLast (pyStrip v)) "," ".") = .valueError →
      normalize_sheet_value v = .err .fatal) ∧
    (∀ (fields : List String) (row col : Int) (t0 t1 : FRow) (existing : Grid)
      (raw : List String),
      readRowSlice fields existing row col = .ok raw →
      normalizeList raw = .err .fatal →
      runScalar fields row col t0 t1 existing = ([], .err .fatal)) ∧
    (∀ (du : String → Option (Nat × Nat × Nat)) (r : List String),
      r.length < 4 → format_row du r = .err .exc) ∧
    (∀ (du : String → Option (Nat × Nat × Nat)) (t : TaskIn) (ts : List TaskIn)
      (tr : List Event),
      runTask du t = (tr, .err .fatal) →
      runTasks du (t :: ts) = .fatalStop [tr]) ∧
    (∀ (du : String → Option (Nat × Nat × Nat)) (t : TaskIn) (ts : List TaskIn)
      (tr : List Event),
      runTask du t = (tr, .err .exc) →
      tracesOf (runTasks du (t :: ts)) = tr :: tracesOf (runTasks du ts) ∧
      isFatalOutcome (runTasks du (t :: ts)) = isFatalOutcome (runTasks du ts)) := by
  refine ⟨?_, ?_, ?_, ?_, ?_⟩
  · intro v h1 h2
    unfold normalize_sheet_value
    rw [if_pos h1]
    dsimp only
    rw [h2]
  · intro fields row col t0 t1 existing raw hr hn
    unfold runScalar
    rw [hr]
    simp only [hn]
  · intro du r hlen
    have h3 : r.get? 3 = none := List.get?_eq_none.2 (by omega)
    unfold format_row
    rw [h3]
    cases r.get? 0 <;> cases r.get? 2 <;> cases r.get? (r.length - 1) <;> rfl
  · intro du t ts tr h
    unfold runTasks
    rw [h]
  · intro du t ts tr h
    cases hts : runTasks du ts with
    | completed l =>
      constructor
      · unfold runTasks
        rw [h, hts]
        rfl
      · unfold runTasks
        rw [h, hts]
        rfl
    | fatalStop l =>
      constructor
      · unfold runTasks
        rw [h, hts]
        rfl
      · unfold runTasks
        rw [h, hts]
        rfl

theorem c7_fatality_split_witness :
    normalize_sheet_value "xyz%" = .err .fatal ∧
    runScalar daFields 2 1 ⟨"01/01/2025", "a", "b", false⟩
      ⟨"01/12/2024", "c", "d", false⟩ [["x", "y"], ["01/01/2025", "zz%"]] =
      ([], .err .fatal) ∧
    format_row (fun _ => none) ["a", "b"] = .err .exc ∧
    runTasks (fun _ => none)
      [⟨daFields, .int 2, .int 1,
        [["01/01/2025", "a", "b", ""], ["01/12/2024", "a", "b", ""]],
        [["x", "y"], ["01/01/2025", "zz%"]]⟩,
       ⟨daFields, .int 5, .int 1,
        [["01/01/2025", "a", "b", ""], ["01/12/2024", "a", "b", ""]], []⟩] =
      .fatalStop [[]] ∧
    tracesOf (runTasks (fun _ => none)
      [⟨daFields, .int 2, .int 1, [["a", "b"], ["c", "d"]], []⟩,
       ⟨daFields, .int 5, .int 1,
        [["01/01/2025", "a", "b", ""], ["01/12/2024", "a", "b", ""]], []⟩]) =
      [] :: tracesOf (runTasks (fun _ => none)
        [⟨daFields, .int 5, .int 1,
          [["01/01/2025", "a", "b", ""], ["01/12/2024", "a", "b", ""]], []⟩]) ∧
    isFatalOutcome (runTasks (fun _ => none)
      [⟨daFields, .int 2, .int 1, [["a", "b"], ["c", "d"]], []⟩,
       ⟨daFields, .int 5, .int 1,
        [["01/01/2025", "a", "b", ""], ["01/12/2024", "a", "b", ""]], []⟩]) =
      isFatalOutcome (runTasks (fun _ => none)
        [⟨daFields, .int 5, .int 1,
          [["01/01/2025", "a", "b", ""], ["01/12/2024", "a", "b", ""]], []⟩]) := by
  refine ⟨c7_fatality_split.1 "xyz%" (by decide) (by decide), ?_, ?_, ?_, ?_, ?_⟩
  · exact c7_fatality_split.2.1 daFields 2 1 _ _ _ ["01/01/2025", "zz%"]
      (by decide) (by decide)
  · exact c7_fatality_split.2.2.1 (fun _ => none) ["a", "b"] (by decide)
  · exact c7_fatality_split.2.2.2.1 (fun _ => none) _ _ [] (by decide)
  · exact (c7_fatality_split.2.2.2.2 (fun _ => none) _ _ [] (by decide)).1
  · exact (c7_fatality_split.2.2.2.2 (fun _ => none) _ _ [] (by decide)).2

theorem replaceFuel_single (a b : Char) :
    ∀ (l : List Char) (fuel : Nat), l.length ≤ fuel →
      replaceFuel [a] [b] fuel l = l.map (fun c => if c = a then b else c) := by
  intro l
  induction l with
  | nil => intro fuel _; cases fuel <;> rfl
  | cons c rest ih =>
    intro fuel hlen
    cases fuel with
    | zero => simp at hlen
    | succ f =>
      by_cases hca : c = a
      · have hpre : [a].isPrefixOf (c :: rest) ∧ [a] ≠ [] := by
          subst hca
          exact ⟨by simp [List.isPrefixOf], by simp⟩
        simp only [replaceFuel, if_pos hpre]
        change [b] ++ replaceFuel [a] [b] f rest = _
        rw [ih f (by simpa using hlen)]
        simp [hca]
      · have hpre : ¬ ([a].isPrefixOf (c :: rest) ∧ [a] ≠ []) := by
          intro hcon
          have hpp := hcon.1
          simp [List.isPrefixOf] at hpp
          exact hca hpp.symm
        simp only [replaceFuel, if_neg hpre]
        rw [ih f (by simpa using hlen)]
        simp [hca]

theorem pyReplace_single (s : String) (a b : Char) :
    pyReplace s ⟨[a]⟩ ⟨[b]⟩ = ⟨s.data.map (fun c => if c = a then b else c)⟩ := by
  unfold pyReplace
  rw [replaceFuel_single a b s.data s.data.length (le_refl _)]

theorem containsSub_single (a : Char) (l : List Char) :
    containsSub [a] l = true ↔ a ∈ l := by
  induction l with
  | nil => simp [containsSub, List.isPrefixOf]
  | cons c rest ih =>
    simp only [containsSub, List.mem_cons, Bool.or_eq_true, ih]
    constructor
    · rintro (h | h)
      · simp [List.isPrefixOf] at h
        exact Or.inl h
      · exact Or.inr h
    · rintro (h | h)
      · exact Or.inl (by simp [List.isPrefixOf, h])
      · exact Or.inr h

theorem pyIn_single_false {a : Char} {l : List Char}
    (h : a ∉ l) : containsSub [a] l = false := by
  rw [← Bool.not_eq_true]
  intro hc
  exact h ((containsSub_single a l).1 hc)

theorem singleton_isSuffixOf (c : Char) (l : List Char) :
    [c].isSuffixOf l = true ↔ l.getLast? = some c := by
  unfold List.isSuffixOf
  cases hrev : l.reverse with
  | nil => simp [List.isPrefixOf, ← List.head?_reverse, hrev]
  | cons d rest =>
    have hl : l.getLast? = some d := by rw [← List.head?_reverse, hrev]; rfl
    rw [hl]
    simp [List.isPrefixOf]
    exact eq_comm

theorem pyRstripChar_eq_self {s : String} {c : Char}
    (h : ∀ d, s.data.getLast? = some d → d ≠ c) : pyRstripChar s c = s := by
  have hstop : s.data.reverse.dropWhile (fun x => decide (x = c)) =
      s.data.reverse := by
    cases hrev : s.data.reverse with
    | nil => simp
    | cons d rest =>
      have hl : s.data.getLast? = some d := by
        rw [← List.head?_reverse, hrev]
        rfl
      exact List.dropWhile_cons_of_neg (by simpa using h d hl)
  unfold pyRstripChar
  rw [hstop, List.reverse_reverse]

theorem digitCharFacts :
    ∀ r : Fin 10, (Char.ofNat (48 + r.val)).isDigit = true ∧
      (Char.ofNat (48 + r.val) = '0' ↔ r.val = 0) ∧
      Char.ofNat (48 + r.val) ≠ '.' ∧ Char.ofNat (48 + r.val) ≠ ',' ∧
      Char.ofNat (48 + r.val) ≠ 'e' := by decide

theorem isDigit_ne {c d : Char} (hc : c.isDigit = true) (hd : d.isDigit = false) :
    c ≠ d := by
  intro h
  subst h
  rw [hc] at hd
  cases hd

theorem digitsFuel_all_digits :
    ∀ (fuel n : Nat) (c : Char), c ∈ digitsFuel fuel n → c.isDigit = true := by
  intro fuel
  induction fuel with
  | zero => intro n c hc; simp [digitsFuel] at hc
  | succ f ih =>
    intro n c hc
    by_cases hn : n = 0
    · simp [digitsFuel, hn] at hc
    · rw [digitsFuel, if_neg hn] at hc
      rcases List.mem_append.1 hc with h | h
      · exact ih _ _ h
      · have hcc : c = Char.ofNat (48 + n % 10) := by simpa using h
        rw [hcc]
        exact (digitCharFacts ⟨n % 10, Nat.mod_lt _ (by omega)⟩).1

theorem digitsOfNat_all_digits (n : Nat) :
    ∀ c ∈ digitsOfNat n, c.isDigit = true := by
  intro c hc
  unfold digitsOfNat at hc
  by_cases hn : n = 0
  · rw [if_pos hn] at hc
    have : c = '0' := by simpa using hc
    rw [this]
    rfl
  · rw [if_neg hn] at hc
    exact digitsFuel_all_digits n n c hc

theorem digitsOfNat_ne_nil (n : Nat) : digitsOfNat n ≠ [] := by
  unfold digitsOfNat
  by_cases hn : n = 0
  · rw [if_pos hn]; simp
  · rw [if_neg hn]
    cases n with
    | zero => exact absurd rfl hn
    | succ k =>
      rw [digitsFuel, if_neg hn]
      simp

theorem digitsOfNat_getLast (n : Nat) (hn : n ≠ 0) :
    (digitsOfNat n).getLast? = some (Char.ofNat (48 + n % 10)) := by
  unfold digitsOfNat
  rw [if_neg hn]
  cases n with
  | zero => exact absurd rfl hn
  | succ k =>
    rw [digitsFuel, if_neg hn]
    exact List.getLast?_concat _

theorem stripTensFuel_facts :
    ∀ (fuel m : Nat), m ≠ 0 → m ≤ fuel →
      (stripTensFuel fuel m).1 % 10 ≠ 0 ∧ (stripTensFuel fuel m).1 ≠ 0 := by
  intro fuel
  induction fuel with
  | zero => intro m hm hle; omega
  | succ f ih =>
    intro m hm hle
    cases m with
    | zero => exact absurd rfl hm
    | succ k =>
      have heq : stripTensFuel (f + 1) (k + 1) =
          if (k + 1) % 10 = 0 then
            ((stripTensFuel f ((k + 1) / 10)).1,
              (stripTensFuel f ((k + 1) / 10)).2 + 1)
          else (k + 1, 0) := rfl
      rw [heq]
      by_cases hmod : (k + 1) % 10 = 0
      · rw [if_pos hmod]
        have h10 : (k + 1) / 10 ≠ 0 := by omega
        have hle2 : (k + 1) / 10 ≤ f := by omega
        exact ih ((k + 1) / 10) h10 hle2
      · rw [if_neg hmod]
        exact ⟨hmod, hm⟩

theorem stripTens_facts {m : Nat} (hm : m ≠ 0) :
    (stripTens m).1 % 10 ≠ 0 ∧ (stripTens m).1 ≠ 0 :=
  stripTensFuel_facts m m hm (le_refl m)

theorem digitsOfNat_getLast_digit (n : Nat) :
    ∃ c, (digitsOfNat n).getLast? = some c ∧ c.isDigit = true := by
  by_cases hn : n = 0
  · subst hn
    exact ⟨'0', rfl, rfl⟩
  · refine ⟨Char.ofNat (48 + n % 10), digitsOfNat_getLast n hn, ?_⟩
    exact (digitCharFacts ⟨n % 10, Nat.mod_lt _ (by omega)⟩).1

theorem getLast?_drop_of_ne_nil {l : List Char} {k : Nat}
    (h : l.drop k ≠ []) : l.getLast? = (l.drop k).getLast? := by
  conv_lhs => rw [← List.take_append_drop k l]
  exact List.getLast?_append_of_ne_nil _ h

theorem pyFloatRepr_finite_getLast (neg : Bool) (m : Nat) (e : Int) :
    ∃ c, (pyFloatRepr (.finite neg m e)).data.getLast? = some c ∧
      c.isDigit = true := by
  unfold pyFloatRepr
  dsimp only
  by_cases hm : m = 0
  · rw [if_pos hm]
    refine ⟨'0', ?_, rfl⟩
    rw [String.data_append]
    rw [List.getLast?_append_of_ne_nil _ (by decide : ("0.0" : String).data ≠ [])]
    rfl
  · rw [if_neg hm]
    by_cases hE : -4 ≤ (((digitsOfNat (stripTens m).1).length : Int) - 1 +
        (e + ((stripTens m).2 : Int))) ∧
        (((digitsOfNat (stripTens m).1).length : Int) - 1 +
        (e + ((stripTens m).2 : Int))) ≤ 15
    · rw [if_pos hE]
      by_cases he : 0 ≤ e + ((stripTens m).2 : Int)
      · rw [if_pos he]
        refine ⟨'0', ?_, rfl⟩
        rw [String.data_append]
        rw [List.getLast?_append_of_ne_nil _ (by decide : (".0" : String).data ≠ [])]
        rfl
      · rw [if_neg he]
        by_cases hLk : (digitsOfNat (stripTens m).1).length >
            (-(e + ((stripTens m).2 : Int))).toNat
        · rw [if_pos hLk]
          obtain ⟨c, hc, hcd⟩ := digitsOfNat_getLast_digit (stripTens m).1
          refine ⟨c, ?_, hcd⟩
          rw [String.data_append]
          have hdr : (digitsOfNat (stripTens m).1).drop
              ((digitsOfNat (stripTens m).1).length -
                (-(e + ((stripTens m).2 : Int))).toNat) ≠ [] := by
            intro hnil
            have := congrArg List.length hnil
            simp only [List.length_drop, List.length_nil] at this
            omega
          rw [List.getLast?_append_of_ne_nil _ (by simpa using hdr)]
          show ((digitsOfNat (stripTens m).1).drop _).getLast? = some c
          rw [← getLast?_drop_of_ne_nil hdr]
          exact hc
        · rw [if_neg hLk]
          obtain ⟨c, hc, hcd⟩ := digitsOfNat_getLast_digit (stripTens m).1
          refine ⟨c, ?_, hcd⟩
          rw [String.data_append]
          rw [List.getLast?_append_of_ne_nil _
            (by simpa using digitsOfNat_ne_nil (stripTens m).1)]
          exact hc
    · rw [if_neg hE]
      set E : Int := (((digitsOfNat (stripTens m).1).length : Int) - 1 +
        (e + ((stripTens m).2 : Int))) with hEdef
      by_cases h10 : (if E < 0 then -E else E).toNat < 10
      · rw [if_pos h10]
        obtain ⟨c, hc, hcd⟩ := digitsOfNat_getLast_digit
          (if E < 0 then -E else E).toNat
        refine ⟨c, ?_, hcd⟩
        rw [String.data_append, String.data_append]
        rw [List.getLast?_append_of_ne_nil _
          (by simp : ("0" ++ (⟨digitsOfNat (if E < 0 then -E else E).toNat⟩ :
            String)).data ≠ [])]
        rw [String.data_append]
        rw [List.getLast?_append_of_ne_nil _
          (by simpa using digitsOfNat_ne_nil (if E < 0 then -E else E).toNat)]
        exact hc
      · rw [if_neg h10]
        obtain ⟨c, hc, hcd⟩ := digitsOfNat_getLast_digit
          (if E < 0 then -E else E).toNat
        refine ⟨c, ?_, hcd⟩
        rw [String.data_append]
        rw [List.getLast?_append_of_ne_nil _
          (by simpa using digitsOfNat_ne_nil (if E < 0 then -E else E).toNat)]
        exact hc

theorem pyFloatRepr_ends_zero_struct (neg : Bool) (m : Nat) (e : Int)
    (hz : (pyFloatRepr (.finite neg m e)).data.getLast? = some '0') :
    ('e' ∈ (pyFloatRepr (.finite neg m e)).data) ∨
      ∃ pre, (pyFloatRepr (.finite neg m e)).data = pre ++ ['.', '0'] := by
  unfold pyFloatRepr at hz ⊢
  dsimp only at hz ⊢
  by_cases hm : m = 0
  · rw [if_pos hm] at hz ⊢
    refine Or.inr ⟨(if neg then "-" else "").data ++ ['0'], ?_⟩
    rw [String.data_append, List.append_assoc]
    rfl
  · rw [if_neg hm] at hz ⊢
    by_cases hE : -4 ≤ (((digitsOfNat (stripTens m).1).length : Int) - 1 +
        (e + ((stripTens m).2 : Int))) ∧
        (((digitsOfNat (stripTens m).1).length : Int) - 1 +
        (e + ((stripTens m).2 : Int))) ≤ 15
    · rw [if_pos hE] at hz ⊢
      by_cases he : 0 ≤ e + ((stripTens m).2 : Int)
      · rw [if_pos he] at hz ⊢
        refine Or.inr ⟨((if neg then "-" else "") ++
          (⟨digitsOfNat (stripTens m).1⟩ : String) ++
          (⟨List.replicate (e + ((stripTens m).2 : Int)).toNat '0'⟩ : String)).data, ?_⟩
        rw [String.data_append]
      · rw [if_neg he] at hz ⊢
        exfalso
        have hlast : ∃ c, (digitsOfNat (stripTens m).1).getLast? = some c ∧ c ≠ '0' := by
          have hd1 := (stripTens_facts hm).1
          have hd2 := (stripTens_facts hm).2
          refine ⟨Char.ofNat (48 + (stripTens m).1 % 10),
            digitsOfNat_getLast _ hd2, ?_⟩
          have hfact := (digitCharFacts ⟨(stripTens m).1 % 10,
            Nat.mod_lt _ (by omega)⟩).2.1
          intro hc
          exact hd1 (hfact.1 hc)
        obtain ⟨c, hc, hcz⟩ := hlast
        by_cases hLk : (digitsOfNat (stripTens m).1).length >
            (-(e + ((stripTens m).2 : Int))).toNat
        · rw [if_pos hLk] at hz
          rw [String.data_append] at hz
          have hdr : (digitsOfNat (stripTens m).1).drop
              ((digitsOfNat (stripTens m).1).length -
                (-(e + ((stripTens m).2 : Int))).toNat) ≠ [] := by
            intro hnil
            have := congrArg List.length hnil
            simp only [List.length_drop, List.length_nil] at this
            omega
          rw [List.getLast?_append_of_ne_nil _ (by simpa using hdr)] at hz
          have hz2 : ((digitsOfNat (stripTens m).1).drop
              ((digitsOfNat (stripTens m).1).length -
                (-(e + ((stripTens m).2 : Int))).toNat)).getLast? = some '0' := hz
          rw [← getLast?_drop_of_ne_nil hdr] at hz2
          rw [hc] at hz2
          exact hcz (Option.some.inj hz2)
        · rw [if_neg hLk] at hz
          rw [String.data_append] at hz
          rw [List.getLast?_append_of_ne_nil _
            (by simpa using digitsOfNat_ne_nil (stripTens m).1)] at hz
          have hz2 : (digitsOfNat (stripTens m).1).getLast? = some '0' := hz
          rw [hc] at hz2
          exact hcz (Option.some.inj hz2)
    · rw [if_neg hE] at hz ⊢
      left
      rw [String.data_append, String.data_append, String.data_append]
      refine List.mem_append.2 (Or.inl (List.mem_append.2 (Or.inl ?_)))
      refine List.mem_append.2 (Or.inr ?_)
      simp

/-- C8: contract of `normalize_sheet_value`.  After the whitespace trim:
(1)–(2) the two spec examples hold exactly; (3) a non-percentage value that
contains a point has every point removed; (4) every other non-percentage
value is returned unchanged; (5) a percentage-suffixed value whose numeric
portion (comma converted to point) parses as a finite float is re-rendered
as a number string followed by the percent sign, in which the decimal
separator is a comma (no point occurs), and — for the non-scientific
renderings, i.e. when no exponent marker occurs — any trailing zero is part
of a fractional rendering `…,0`, never a redundant trailing zero of a
longer fraction: the float round-trip has already dropped those. -/
theorem c8_normalize_contract :
    (normalize_sheet_value "2,50%" = .ok "2,5%") ∧
    (normalize_sheet_value "133.000" = .ok "133000") ∧
    (∀ v : String, pyEndsWith (pyStrip v) "%" = false →
      pyIn "." (pyStrip v) = true →
      normalize_sheet_value v = .ok (pyReplace (pyStrip v) "." "")) ∧
    (∀ v : String, pyEndsWith (pyStrip v) "%" = false →
      pyIn "." (pyStrip v) = false →
      normalize_sheet_value v = .ok (pyStrip v)) ∧
    (∀ (v : String) (neg : Bool) (m : Nat) (e : Int),
      pyEndsWith (pyStrip v) "%" = true →
      pyFloat (pyReplace (pyDropLast (pyStrip v)) "," ".") =
        .val (.finite neg m e) →
      ∃ num : String,
        normalize_sheet_value v = .ok (num ++ "%") ∧
        pyIn "." num = false ∧
        (pyIn "e" num = false →
          pyEndsWith num "0" = true → pyEndsWith num ",0" = true)) := by
  refine ⟨by decide, by decide, ?_, ?_, ?_⟩
  · intro v h1 h2
    simp only [normalize_sheet_value, h1, h2, Bool.false_eq_true, if_false,
      if_true]
  · intro v h1 h2
    simp only [normalize_sheet_value, h1, h2, Bool.false_eq_true, if_false]
  · intro v neg m e h1 hf
    have hmap : pyReplace (pyFloatRepr (.finite neg m e)) "." "," =
        ⟨(pyFloatRepr (.finite neg m e)).data.map
          (fun c => if c = '.' then ',' else c)⟩ :=
      pyReplace_single _ '.' ','
    obtain ⟨c, hlast, hcd⟩ := pyFloatRepr_finite_getLast neg m e
    have hcne : c ≠ '.' := isDigit_ne hcd (by decide)
    have hcnc : c ≠ ',' := isDigit_ne hcd (by decide)
    have hlast2 : ((pyFloatRepr (.finite neg m e)).data.map
        (fun c => if c = '.' then ',' else c)).getLast? = some c := by
      rw [List.getLast?_map, hlast]
      simp [hcne]
    have hstrip : pyRstripChar ⟨(pyFloatRepr (.finite neg m e)).data.map
        (fun c => if c = '.' then ',' else c)⟩ ',' =
        ⟨(pyFloatRepr (.finite neg m e)).data.map
          (fun c => if c = '.' then ',' else c)⟩ := by
      apply pyRstripChar_eq_self
      intro d hd
      have hd' : ((pyFloatRepr (.finite neg m e)).data.map
          (fun c => if c = '.' then ',' else c)).getLast? = some d := hd
      rw [hlast2] at hd'
      exact Option.some.inj hd' ▸ hcnc
    refine ⟨⟨(pyFloatRepr (.finite neg m e)).data.map
        (fun c => if c = '.' then ',' else c)⟩, ?_, ?_, ?_⟩
    · simp only [normalize_sheet_value, h1, if_true, hf]
      rw [hmap, hstrip]
    · exact pyIn_single_false (by
        intro hmem
        obtain ⟨c0, hc0m, hc0e⟩ := List.mem_map.1 hmem
        by_cases h0 : c0 = '.'
        · rw [h0, if_pos rfl] at hc0e
          exact absurd hc0e (by decide)
        · rw [if_neg h0] at hc0e
          exact h0 hc0e)
    · intro hne hz0
      have hne' : containsSub ['e'] ((pyFloatRepr (.finite neg m e)).data.map
          (fun c => if c = '.' then ',' else c)) = false := hne
      have hEnotin : 'e' ∉ (pyFloatRepr (.finite neg m e)).data := by
        intro hEin
        have hmemmap : 'e' ∈ (pyFloatRepr (.finite neg m e)).data.map
            (fun c => if c = '.' then ',' else c) :=
          List.mem_map.2 ⟨'e', hEin, by decide⟩
        have hct := (containsSub_single 'e' _).2 hmemmap
        rw [hne'] at hct
        exact Bool.false_ne_true hct
      have hz0' : ((pyFloatRepr (.finite neg m e)).data.map
          (fun c => if c = '.' then ',' else c)).getLast? = some '0' :=
        (singleton_isSuffixOf '0' _).1 hz0
      have hc0 : c = '0' := by
        rw [hlast2] at hz0'
        exact Option.some.inj hz0'
      have hlast0 : (pyFloatRepr (.finite neg m e)).data.getLast? = some '0' :=
        hc0 ▸ hlast
      rcases pyFloatRepr_ends_zero_struct neg m e hlast0 with hE | ⟨pre, hpre⟩
      · exact absurd hE hEnotin
      · show (",0").data.isSuffixOf ((pyFloatRepr (.finite neg m e)).data.map
          (fun c => if c = '.' then ',' else c)) = true
        rw [hpre, List.map_append,
          show (['.', '0'].map (fun c => if c = '.' then ',' else c)) =
            [',', '0'] from by decide]
        exact (List.isSuffixOf_iff_suffix).2 (List.suffix_append _ _)

/-- C8 witness: the general clauses of the contract applied at concrete
inputs — a pointed non-percentage value, a plain value, and a
percentage value whose numeric portion parses as a finite float. -/
theorem c8_normalize_contract_witness :
    normalize_sheet_value "133.000" = .ok (pyReplace (pyStrip "133.000") "." "") ∧
    normalize_sheet_value "abc" = .ok (pyStrip "abc") ∧
    (∃ num : String,
      normalize_sheet_value "1,5%" = .ok (num ++ "%") ∧
      pyIn "." num = false ∧
      (pyIn "e" num = false →
        pyEndsWith num "0" = true → pyEndsWith num ",0" = true)) :=
  ⟨c8_normalize_contract.2.2.1 "133.000" (by decide) (by decide),
   c8_normalize_contract.2.2.2.1 "abc" (by decide) (by decide),
   c8_normalize_contract.2.2.2.2 "1,5%" false 15 (-1) (by decide) (by decide)⟩

theorem getD_of_getElem? {A : Type} {l : List A} {k : Nat} {a : A} (d : A)
    (h : l[k]? = some a) : l.getD k d = a := by
  rw [List.getD_eq_getElem?_getD, h]
  rfl

theorem padTo_length {A : Type} (l : List A) (n : Nat) (d : A) :
    (padTo l n d).length = max l.length n := by
  unfold padTo
  rw [List.length_append, List.length_replicate]
  omega

theorem padTo_getElem?_lt {A : Type} {l : List A} {k : Nat} (h : k < l.length)
    (n : Nat) (d : A) : (padTo l n d)[k]? = l[k]? := by
  unfold padTo
  exact List.getElem?_append_left h

theorem rowAtN_padTo (g : Grid) (n j : Nat) :
    rowAtN (padTo g n []) j = rowAtN g j := by
  unfold rowAtN
  by_cases h : j < g.length
  · rw [List.getD_eq_getElem?_getD, List.getD_eq_getElem?_getD,
      padTo_getElem?_lt h]
  · rw [List.getD_eq_default g [] (by omega), List.getD_eq_getElem?_getD]
    unfold padTo
    rw [List.getElem?_append_right (by omega), List.getElem?_replicate]
    split <;> rfl

theorem setAtPad_length (l : List String) (ci : Nat) (v : String) :
    (setAtPad l ci v).length = max l.length (ci + 1) := by
  unfold setAtPad
  rw [List.length_set, padTo_length]

theorem setAtPad_getElem?_self (l : List String) (ci : Nat) (v : String) :
    (setAtPad l ci v)[ci]? = some v := by
  unfold setAtPad
  exact List.getElem?_set_eq_of_lt v (by rw [padTo_length]; omega)

theorem setAtPad_getElem?_ne {l : List String} {k ci : Nat} (hk : k < l.length)
    (hne : k ≠ ci) (v : String) : (setAtPad l ci v)[k]? = l[k]? := by
  unfold setAtPad
  rw [List.getElem?_set_ne (Ne.symm hne)]
  exact padTo_getElem?_lt hk _ _

theorem setCells_length_ge (vs : List String) :
    ∀ (l : List String) (ci : Nat), l.length ≤ (setCells l ci vs).length := by
  induction vs with
  | nil => intro l ci; exact le_refl _
  | cons v vs ih =>
    intro l ci
    show l.length ≤ (setCells (setAtPad l ci v) (ci + 1) vs).length
    refine le_trans ?_ (ih (setAtPad l ci v) (ci + 1))
    rw [setAtPad_length]
    omega

theorem setCells_length_lb :
    ∀ (vs : List String) (l : List String) (ci : Nat), vs ≠ [] →
      ci + vs.length ≤ (setCells l ci vs).length := by
  intro vs
  induction vs with
  | nil => intro l ci h; cases h rfl
  | cons v vs ih =>
    intro l ci _
    show ci + (v :: vs).length ≤ (setCells (setAtPad l ci v) (ci + 1) vs).length
    by_cases hvs : vs = []
    · subst hvs
      show ci + 1 ≤ (setAtPad l ci v).length
      rw [setAtPad_length]
      omega
    · have h := ih (setAtPad l ci v) (ci + 1) hvs
      simp only [List.length_cons]
      omega

theorem setCells_getElem?_lt :
    ∀ (vs : List String) (l : List String) (ci k : Nat), k < ci → k < l.length →
      (setCells l ci vs)[k]? = l[k]? := by
  intro vs
  induction vs with
  | nil => intro l ci k _ _; rfl
  | cons v vs ih =>
    intro l ci k hk hkl
    show (setCells (setAtPad l ci v) (ci + 1) vs)[k]? = l[k]?
    rw [ih (setAtPad l ci v) (ci + 1) k (by omega)
      (by rw [setAtPad_length]; omega)]
    exact setAtPad_getElem?_ne hkl (by omega) v

theorem setCells_slice :
    ∀ (vs : List String) (l : List String) (ci : Nat),
      ((setCells l ci vs).drop ci).take vs.length = vs := by
  intro vs
  induction vs with
  | nil => intro l ci; rfl
  | cons v vs ih =>
    intro l ci
    show ((setCells (setAtPad l ci v) (ci + 1) vs).drop ci).take (vs.length + 1) =
      v :: vs
    have hlen : ci < (setCells (setAtPad l ci v) (ci + 1) vs).length := by
      have h1 := setCells_length_ge vs (setAtPad l ci v) (ci + 1)
      rw [setAtPad_length] at h1
      omega
    have hget : (setCells (setAtPad l ci v) (ci + 1) vs)[ci]? = some v := by
      rw [setCells_getElem?_lt vs (setAtPad l ci v) (ci + 1) ci (by omega)
        (by rw [setAtPad_length]; omega)]
      exact setAtPad_getElem?_self l ci v
    have hx : (setCells (setAtPad l ci v) (ci + 1) vs)[ci] = v := by
      have h2 := List.getElem?_eq_getElem hlen
      rw [hget] at h2
      exact (Option.some.inj h2).symm
    rw [List.drop_eq_getElem_cons hlen, List.take_succ_cons, hx, ih]

theorem rowAtN_setCellNat_self (g : Grid) (ri ci : Nat) (v : String) :
    rowAtN (setCellNat g ri ci v) ri = setAtPad (rowAtN g ri) ci v := by
  have hlen : ri < (padTo g (ri + 1) []).length := by rw [padTo_length]; omega
  have h2 : ((padTo g (ri + 1) []).set ri
      (setAtPad (rowAtN (padTo g (ri + 1) []) ri) ci v))[ri]? =
      some (setAtPad (rowAtN (padTo g (ri + 1) []) ri) ci v) :=
    List.getElem?_set_eq_of_lt _ hlen
  calc rowAtN (setCellNat g ri ci v) ri
      = setAtPad (rowAtN (padTo g (ri + 1) []) ri) ci v := getD_of_getElem? [] h2
    _ = setAtPad (rowAtN g ri) ci v := by rw [rowAtN_padTo]

theorem rowAtN_setCellNat_ne (g : Grid) {j ri : Nat} (h : j ≠ ri) (ci : Nat)
    (v : String) : rowAtN (setCellNat g ri ci v) j = rowAtN g j := by
  have h2 : ((padTo g (ri + 1) []).set ri
      (setAtPad (rowAtN (padTo g (ri + 1) []) ri) ci v))[j]? =
      (padTo g (ri + 1) [])[j]? :=
    List.getElem?_set_ne (Ne.symm h)
  calc rowAtN (setCellNat g ri ci v) j
      = rowAtN (padTo g (ri + 1) []) j := by
        show ((padTo g (ri + 1) []).set ri
          (setAtPad (rowAtN (padTo g (ri + 1) []) ri) ci v)).getD j [] = _
        rw [List.getD_eq_getElem?_getD, h2, ← List.getD_eq_getElem?_getD]
        rfl
    _ = rowAtN g j := rowAtN_padTo g (ri + 1) j

theorem setCellNat_length (g : Grid) (ri ci : Nat) (v : String) :
    (setCellNat g ri ci v).length = max g.length (ri + 1) := by
  show ((padTo g (ri + 1) []).set ri _).length = _
  rw [List.length_set, padTo_length]

theorem setCell_pos {r c : Int} (hr : 1 ≤ r) (hc : 1 ≤ c) (g : Grid)
    (v : String) : setCell g r c v = setCellNat g (r - 1).toNat (c - 1).toNat v := by
  unfold setCell
  rw [if_pos ⟨hr, hc⟩]

theorem applyEvents_append (a b : List Event) (g : Grid) :
    applyEvents (a ++ b) g = applyEvents b (applyEvents a g) :=
  List.foldl_append applyEvent g a b

theorem applyEvents_writesFor_row (vs : List String) :
    ∀ (g : Grid) (r c : Int), 1 ≤ r → 1 ≤ c →
      rowAtN (applyEvents (writesFor r c vs) g) (r - 1).toNat =
        setCells (rowAtN g (r - 1).toNat) (c - 1).toNat vs := by
  induction vs with
  | nil => intro g r c _ _; rfl
  | cons v vs ih =>
    intro g r c hr hc
    show rowAtN (applyEvents (writesFor r (c + 1) vs) (setCell g r c v))
      (r - 1).toNat = _
    rw [ih (setCell g r c v) r (c + 1) hr (by omega)]
    rw [setCell_pos hr hc]
    have hci : (c + 1 - 1).toNat = (c - 1).toNat + 1 := by omega
    rw [hci, rowAtN_setCellNat_self]
    rfl

theorem applyEvents_writesFor_ne (vs : List String) :
    ∀ (g : Grid) (r c : Int) (j : Nat), 1 ≤ r → 1 ≤ c → j ≠ (r - 1).toNat →
      rowAtN (applyEvents (writesFor r c vs) g) j = rowAtN g j := by
  induction vs with
  | nil => intro g r c j _ _ _; rfl
  | cons v vs ih =>
    intro g r c j hr hc hj
    show rowAtN (applyEvents (writesFor r (c + 1) vs) (setCell g r c v)) j = _
    rw [ih (setCell g r c v) r (c + 1) j hr (by omega) hj]
    rw [setCell_pos hr hc]
    exact rowAtN_setCellNat_ne g hj _ _

theorem applyEvents_writesFor_length_ge (vs : List String) :
    ∀ (g : Grid) (r c : Int),
      g.length ≤ (applyEvents (writesFor r c vs) g).length := by
  induction vs with
  | nil => intro g r c; exact le_refl _
  | cons v vs ih =>
    intro g r c
    show g.length ≤
      (applyEvents (writesFor r (c + 1) vs) (setCell g r c v)).length
    refine le_trans ?_ (ih (setCell g r c v) r (c + 1))
    unfold setCell
    split
    · rw [setCellNat_length]
      omega
    · exact le_refl _

theorem applyEvents_writesFor_length_lb {vs : List String} (hvs : vs ≠ [])
    (g : Grid) {r : Int} (c : Int) (hr : 1 ≤ r) (hc : 1 ≤ c) :
    (r - 1).toNat + 1 ≤ (applyEvents (writesFor r c vs) g).length := by
  cases vs with
  | nil => cases hvs rfl
  | cons v vs =>
    show (r - 1).toNat + 1 ≤
      (applyEvents (writesFor r (c + 1) vs) (setCell g r c v)).length
    refine le_trans ?_ (applyEvents_writesFor_length_ge vs (setCell g r c v) r (c + 1))
    rw [setCell_pos hr hc, setCellNat_length]
    omega

theorem pySlice_exact {A : Type} (l : List A) (i : Int) (k : Nat) (hi : 0 ≤ i)
    (hk : i + k ≤ (l.length : Int)) :
    pySlice l i (i + k) = (l.drop i.toNat).take k := by
  simp only [pySlice]
  rw [if_neg (by omega : ¬ i < 0), if_neg (by omega : ¬ i + (k : Int) < 0)]
  have h1 : min i (l.length : Int) = i := by omega
  have h2 : min (i + k) (l.length : Int) = i + k := by omega
  rw [h1, h2]
  have h3 : (i + k).toNat - i.toNat = k := by omega
  rw [h3]

theorem pySlice_setCells {vs : List String} (hvs : vs ≠ []) (l : List String)
    {col : Int} (hc : 1 ≤ col) :
    pySlice (setCells l (col - 1).toNat vs) (col - 1)
      ((col - 1) + vs.length) = vs := by
  have hlen := setCells_length_lb vs l (col - 1).toNat hvs
  have h := pySlice_exact (setCells l (col - 1).toNat vs) (col - 1) vs.length
    (by omega) (by omega)
  rw [h]
  exact setCells_slice vs l (col - 1).toNat

theorem readRowSlice_ok_long (fields : List String) (existing : Grid)
    (row col : Int) (hrow : 1 ≤ row) (hlen : (existing.length : Int) ≥ row) :
    readRowSlice fields existing row col =
      .ok (pySlice (rowAtN existing (row - 1).toNat) (col - 1)
        (sliceEnd fields col)) := by
  unfold readRowSlice
  rw [if_pos hlen]
  have hget : pyGet existing (row - 1) =
      some (rowAtN existing (row - 1).toNat) := by
    simp only [pyGet]
    rw [if_neg (by omega : ¬ (row - 1 : Int) < 0)]
    rw [if_pos (⟨by omega, by omega⟩ :
      (0 : Int) ≤ row - 1 ∧ row - 1 < (existing.length : Int))]
    have hk : (row - 1).toNat < existing.length := by omega
    rw [List.get?_eq_getElem?, List.getElem?_eq_getElem hk]
    have hrow' : rowAtN existing (row - 1).toNat = existing[(row - 1).toNat] :=
      getD_of_getElem? [] (List.getElem?_eq_getElem hk)
    rw [hrow']
  rw [hget]

theorem sliceEnd_scalarTuple {fields : List String} {col : Int}
    (h : fields = daFields ∨ col = 2) (t : FRow) :
    sliceEnd fields col = (col - 1) + ((scalarTuple fields t).length : Int) := by
  unfold sliceEnd scalarTuple
  by_cases hf : fields = daFields
  · rw [if_pos hf, if_pos hf]
    have hl : ([t.date, t.actual] : List String).length = 2 := rfl
    rw [hl]
    omega
  · rcases h with h | h
    · exact absurd h hf
    · rw [if_neg hf, if_neg hf, h]
      have hl : ([t.date, t.forecast, t.actual] : List String).length = 3 := rfl
      rw [hl]
      omega

theorem scalarTuple_ne_nil (fields : List String) (t : FRow) :
    scalarTuple fields t ≠ [] := by
  unfold scalarTuple
  split <;> simp

theorem scalarTuple_head (fields : List String) (t : FRow) :
    (scalarTuple fields t).head? = some t.date := by
  unfold scalarTuple
  split <;> rfl

theorem ite_writes_isWrite {P : Prop} [Decidable P] {r c : Int}
    {vs : List String} :
    ∀ e ∈ (if P then ([] : List Event) else writesFor r c vs),
      isWriteEvent e = true := by
  split
  · intro e he
    simp at he
  · exact writesFor_isWrite

theorem runScalar_short_cmp {fields : List String} {existing : Grid}
    {row col : Int} {rawFirst exFirst : List String} {exDate : String}
    (d : String) (hshort : (existing.length : Int) < row)
    (hr : readRowSlice fields existing row col = .ok rawFirst)
    (hn : normalizeList rawFirst = .ok exFirst)
    (hh : exFirst.head? = some exDate) :
    compare_dates d exDate = -1 := by
  rw [readRowSlice_default hshort] at hr
  have hraw : sliceDefaults fields = rawFirst := PyResult.ok.inj hr
  subst hraw
  rw [normalizeList_defaults] at hn
  have hex : sliceDefaults fields = exFirst := PyResult.ok.inj hn
  subst hex
  rw [sliceDefaults_head] at hh
  have hd : "" = exDate := Option.some.inj hh
  subst hd
  exact compare_dates_empty_sheet d

theorem scalarRetro_no_write {fields : List String} {prev col : Int} {t1 : FRow}
    {g2 : Grid} {raw exPrev : List String}
    (hr : readRowSlice fields g2 prev col = .ok raw)
    (hn : normalizeList raw = .ok exPrev)
    (heq : scalarTuple fields t1 = exPrev) :
    scalarRetro fields prev col t1 g2 [] = ([], .ok ()) := by
  rw [scalarRetro_ok hr hn, if_pos heq]
  rfl

/-- C1 (amended): idempotence holds for scalar-cursor tasks under the
conditions the code actually guarantees: the cursor row is at least 2, the
start column at least 1, the existing-row slice is aligned with the written
tuple (the two-field layout, or `start_col = 2` for the three-field layout
whose slice end is the hardcoded 4), and every scraped value is a fixed
point of `normalize_sheet_value`.  If a run completes without error, then a
second run with the same scraped data, starting from the stored cursor and
the updated sheet, issues no event at all.  (Without the fixed-point
condition the equal-date branch compares raw scraped against normalized
existing values and rewrites the same cells on every run; and parallel
tasks lose concurrent advances — see the counterexample.) -/
theorem c1_idempotent_scalar_amended
    (fields : List String) (row col : Int) (t0 t1 : FRow) (g : Grid)
    (hrow : 2 ≤ row) (hcol : 1 ≤ col)
    (hlayout : fields = daFields ∨ col = 2)
    (hfix : ∀ v ∈ scalarTuple fields t0 ++ scalarTuple fields t1,
      normalize_sheet_value v = .ok v)
    (hok : (runScalar fields row col t0 t1 g).2 = .ok ()) :
    (runScalar fields
      (cursorAfterScalar (runScalar fields row col t0 t1 g).1 row) col t0 t1
      (applyEvents (runScalar fields row col t0 t1 g).1 g)).1 = [] := by
  have hfix0 : ∀ v ∈ scalarTuple fields t0, normalize_sheet_value v = .ok v :=
    fun v hv => hfix v (List.mem_append.2 (Or.inl hv))
  have hfix1 : ∀ v ∈ scalarTuple fields t1, normalize_sheet_value v = .ok v :=
    fun v hv => hfix v (List.mem_append.2 (Or.inr hv))
  have hfs := scalarTuple_ne_nil fields t0
  have hss := scalarTuple_ne_nil fields t1
  cases hr : readRowSlice fields g row col with
  | err e =>
    exfalso
    unfold runScalar at hok
    rw [hr] at hok
    exact PyResult.noConfusion hok
  | ok rawFirst =>
  cases hn : normalizeList rawFirst with
  | err e =>
    exfalso
    unfold runScalar at hok
    rw [hr] at hok
    dsimp only at hok
    rw [hn] at hok
    exact PyResult.noConfusion hok
  | ok exFirst =>
  cases hh : exFirst.head? with
  | none =>
    exfalso
    unfold runScalar at hok
    rw [hr] at hok
    dsimp only at hok
    rw [hn] at hok
    dsimp only at hok
    rw [hh] at hok
    exact PyResult.noConfusion hok
  | some exDate =>
  by_cases hc1 : compare_dates t0.date exDate = 1
  · -- newer-date branch
    have hlen : (g.length : Int) ≥ row := by
      by_contra hshort
      have hm1 := runScalar_short_cmp t0.date (by omega) hr hn hh
      rw [hm1] at hc1
      exact absurd hc1 (by decide)
    have hrfirst : rawFirst = pySlice (rowAtN g (row - 1).toNat) (col - 1)
        (sliceEnd fields col) := by
      have h1 := readRowSlice_ok_long fields g row col (by omega) hlen
      rw [hr] at h1
      exact PyResult.ok.inj h1
    obtain ⟨n0, m0, hpt0, hpt1⟩ := compare_dates_eq_one hc1
    have hcmp2 : compare_dates t0.date t0.date = 0 := compare_dates_self hpt0
    by_cases hite : scalarTuple fields t1 = exFirst
    · -- no retro write in run 1
      have hrun1 : runScalar fields row col t0 t1 g =
          (Event.persist (.scalar (row + 1)) ::
            writesFor (row + 1) col (scalarTuple fields t0), .ok ()) := by
        rw [runScalar_newer hr hn hh hc1, scalarRetro_ok hr hn, if_pos hite]
        rw [List.append_nil]
      rw [hrun1]
      dsimp only
      have hcur : cursorAfterScalar (Event.persist (.scalar (row + 1)) ::
          writesFor (row + 1) col (scalarTuple fields t0)) row = row + 1 := by
        show cursorAfterScalar
          (writesFor (row + 1) col (scalarTuple fields t0)) (row + 1) = row + 1
        exact cursorAfterScalar_of_writes writesFor_isWrite
      rw [hcur]
      have hgrid : applyEvents (Event.persist (.scalar (row + 1)) ::
          writesFor (row + 1) col (scalarTuple fields t0)) g =
          applyEvents (writesFor (row + 1) col (scalarTuple fields t0)) g := rfl
      rw [hgrid]
      have hlb := applyEvents_writesFor_length_lb hfs g col
        (by omega : (1 : Int) ≤ row + 1) (by omega)
      have hG1len : ((applyEvents (writesFor (row + 1) col
          (scalarTuple fields t0)) g).length : Int) ≥ row + 1 := by omega
      have hG1row := applyEvents_writesFor_row (scalarTuple fields t0) g
        (row + 1) col (by omega) (by omega)
      have hG1frame := applyEvents_writesFor_ne (scalarTuple fields t0) g
        (row + 1) col (row - 1).toNat (by omega) (by omega) (by omega)
      have hr2 : readRowSlice fields
          (applyEvents (writesFor (row + 1) col (scalarTuple fields t0)) g)
          (row + 1) col = .ok (scalarTuple fields t0) := by
        rw [readRowSlice_ok_long fields _ (row + 1) col (by omega) hG1len]
        rw [hG1row, sliceEnd_scalarTuple hlayout t0]
        rw [pySlice_setCells hfs _ hcol]
      rw [runScalar_equal hr2 (normalizeList_fixed hfix0)
        (scalarTuple_head fields t0) hcmp2]
      rw [if_pos rfl]
      rw [show (row + 1 - 1 : Int) = row from by omega]
      have hrp2 : readRowSlice fields
          (applyEvents (writesFor (row + 1) col (scalarTuple fields t0)) g)
          row col = .ok rawFirst := by
        rw [readRowSlice_ok_long fields _ row col (by omega) (by omega)]
        rw [hG1frame, ← hrfirst]
      rw [scalarRetro_no_write hrp2 hn hite]
    · -- retro write in run 1
      have hrun1 : runScalar fields row col t0 t1 g =
          ((Event.persist (.scalar (row + 1)) ::
            writesFor (row + 1) col (scalarTuple fields t0)) ++
            writesFor row col (scalarTuple fields t1), .ok ()) := by
        rw [runScalar_newer hr hn hh hc1, scalarRetro_ok hr hn, if_neg hite]
      rw [hrun1]
      dsimp only
      have hcur : cursorAfterScalar ((Event.persist (.scalar (row + 1)) ::
          writesFor (row + 1) col (scalarTuple fields t0)) ++
          writesFor row col (scalarTuple fields t1)) row = row + 1 := by
        rw [List.cons_append]
        show cursorAfterScalar
          (writesFor (row + 1) col (scalarTuple fields t0) ++
            writesFor row col (scalarTuple fields t1)) (row + 1) = row + 1
        refine cursorAfterScalar_of_writes ?_
        intro e he
        rcases List.mem_append.1 he with h | h
        · exact writesFor_isWrite e h
        · exact writesFor_isWrite e h
      rw [hcur]
      have hgrid : applyEvents ((Event.persist (.scalar (row + 1)) ::
          writesFor (row + 1) col (scalarTuple fields t0)) ++
          writesFor row col (scalarTuple fields t1)) g =
          applyEvents (writesFor row col (scalarTuple fields t1))
            (applyEvents (writesFor (row + 1) col (scalarTuple fields t0)) g) := by
        rw [List.cons_append]
        show applyEvents (writesFor (row + 1) col (scalarTuple fields t0) ++
          writesFor row col (scalarTuple fields t1)) g = _
        exact applyEvents_append _ _ _
      rw [hgrid]
      have hlb := applyEvents_writesFor_length_lb hfs g col
        (by omega : (1 : Int) ≤ row + 1) (by omega)
      have hG1len : ((applyEvents (writesFor (row + 1) col
          (scalarTuple fields t0)) g).length : Int) ≥ row + 1 := by omega
      have hG2ge := applyEvents_writesFor_length_ge (scalarTuple fields t1)
        (applyEvents (writesFor (row + 1) col (scalarTuple fields t0)) g) row col
      have hG2len : ((applyEvents (writesFor row col (scalarTuple fields t1))
          (applyEvents (writesFor (row + 1) col
            (scalarTuple fields t0)) g)).length : Int) ≥ row + 1 := by omega
      have hG1row := applyEvents_writesFor_row (scalarTuple fields t0) g
        (row + 1) col (by omega) (by omega)
      have hG2frame := applyEvents_writesFor_ne (scalarTuple fields t1)
        (applyEvents (writesFor (row + 1) col (scalarTuple fields t0)) g)
        row col (row + 1 - 1).toNat (by omega) (by omega) (by omega)
      have hG2row0 : rowAtN (applyEvents (writesFor row col (scalarTuple fields t1))
          (applyEvents (writesFor (row + 1) col (scalarTuple fields t0)) g))
          (row - 1).toNat =
          setCells (rowAtN g (row - 1).toNat) (col - 1).toNat
            (scalarTuple fields t1) := by
        rw [applyEvents_writesFor_row (scalarTuple fields t1) _ row col
          (by omega) (by omega)]
        rw [applyEvents_writesFor_ne (scalarTuple fields t0) g (row + 1) col
          (row - 1).toNat (by omega) (by omega) (by omega)]
      have hr2 : readRowSlice fields
          (applyEvents (writesFor row col (scalarTuple fields t1))
            (applyEvents (writesFor (row + 1) col (scalarTuple fields t0)) g))
          (row + 1) col = .ok (scalarTuple fields t0) := by
        rw [readRowSlice_ok_long fields _ (row + 1) col (by omega) hG2len]
        rw [hG2frame, hG1row, sliceEnd_scalarTuple hlayout t0]
        rw [pySlice_setCells hfs _ hcol]
      rw [runScalar_equal hr2 (normalizeList_fixed hfix0)
        (scalarTuple_head fields t0) hcmp2]
      rw [if_pos rfl]
      rw [show (row + 1 - 1 : Int) = row from by omega]
      have hrp2 : readRowSlice fields
          (applyEvents (writesFor row col (scalarTuple fields t1))
            (applyEvents (writesFor (row + 1) col (scalarTuple fields t0)) g))
          row col = .ok (scalarTuple fields t1) := by
        rw [readRowSlice_ok_long fields _ row col (by omega) (by omega)]
        rw [hG2row0, sliceEnd_scalarTuple hlayout t1]
        rw [pySlice_setCells hss _ hcol]
      rw [scalarRetro_no_write hrp2 (normalizeList_fixed hfix1) rfl]
  · by_cases hc0 : compare_dates t0.date exDate = 0
    · -- equal-date branch
      have hlen : (g.length : Int) ≥ row := by
        by_contra hshort
        have hm1 := runScalar_short_cmp t0.date (by omega) hr hn hh
        rw [hm1] at hc0
        exact absurd hc0 (by decide)
      have hrfirst : rawFirst = pySlice (rowAtN g (row - 1).toNat) (col - 1)
          (sliceEnd fields col) := by
        have h1 := readRowSlice_ok_long fields g row col (by omega) hlen
        rw [hr] at h1
        exact PyResult.ok.inj h1
      have hrp1 : readRowSlice fields g (row - 1) col =
          .ok (pySlice (rowAtN g (row - 1 - 1).toNat) (col - 1)
            (sliceEnd fields col)) :=
        readRowSlice_ok_long fields g (row - 1) col (by omega) (by omega)
      have hok' : (scalarRetro fields (row - 1) col t1 g
          (if scalarTuple fields t0 = exFirst then []
            else writesFor row col (scalarTuple fields t0))).2 = .ok () := by
        rw [← runScalar_equal hr hn hh hc0]
        exact hok
      cases hnp : normalizeList (pySlice (rowAtN g (row - 1 - 1).toNat)
          (col - 1) (sliceEnd fields col)) with
      | err e =>
        exfalso
        unfold scalarRetro at hok'
        rw [hrp1] at hok'
        dsimp only at hok'
        rw [hnp] at hok'
        exact PyResult.noConfusion hok'
      | ok exPrev =>
      obtain ⟨x0, hx0, hx1⟩ := compare_dates_eq_zero hc0
      have hcmp2 : compare_dates t0.date t0.date = 0 := compare_dates_self hx0
      by_cases he : scalarTuple fields t0 = exFirst
      · by_cases hsse : scalarTuple fields t1 = exPrev
        · -- no write at all in run 1
          have hrun1 : runScalar fields row col t0 t1 g = ([], .ok ()) := by
            rw [runScalar_equal hr hn hh hc0, scalarRetro_ok hrp1 hnp,
              if_pos he, if_pos hsse]
            rfl
          rw [hrun1]
          dsimp only
          show (runScalar fields row col t0 t1 g).1 = []
          rw [hrun1]
        · -- only the retro write in run 1
          have hrun1 : runScalar fields row col t0 t1 g =
              (writesFor (row - 1) col (scalarTuple fields t1), .ok ()) := by
            rw [runScalar_equal hr hn hh hc0, scalarRetro_ok hrp1 hnp,
              if_pos he, if_neg hsse]
            rw [List.nil_append]
          rw [hrun1]
          dsimp only
          have hcur : cursorAfterScalar
              (writesFor (row - 1) col (scalarTuple fields t1)) row = row :=
            cursorAfterScalar_of_writes writesFor_isWrite
          rw [hcur]
          have hge := applyEvents_writesFor_length_ge (scalarTuple fields t1)
            g (row - 1) col
          have hframe := applyEvents_writesFor_ne (scalarTuple fields t1) g
            (row - 1) col (row - 1).toNat (by omega) (by omega) (by omega)
          have hr2 : readRowSlice fields
              (applyEvents (writesFor (row - 1) col (scalarTuple fields t1)) g)
              row col = .ok rawFirst := by
            rw [readRowSlice_ok_long fields _ row col (by omega) (by omega)]
            rw [hframe, ← hrfirst]
          rw [runScalar_equal hr2 hn hh hc0]
          rw [if_pos he]
          have hG2row := applyEvents_writesFor_row (scalarTuple fields t1) g
            (row - 1) col (by omega) (by omega)
          have hrp2 : readRowSlice fields
              (applyEvents (writesFor (row - 1) col (scalarTuple fields t1)) g)
              (row - 1) col = .ok (scalarTuple fields t1) := by
            rw [readRowSlice_ok_long fields _ (row - 1) col (by omega) (by omega)]
            rw [hG2row, sliceEnd_scalarTuple hlayout t1]
            rw [pySlice_setCells hss _ hcol]
          rw [scalarRetro_no_write hrp2 (normalizeList_fixed hfix1) rfl]
      · by_cases hsse : scalarTuple fields t1 = exPrev
        · -- only the in-place write in run 1
          have hrun1 : runScalar fields row col t0 t1 g =
              (writesFor row col (scalarTuple fields t0), .ok ()) := by
            rw [runScalar_equal hr hn hh hc0, scalarRetro_ok hrp1 hnp,
              if_neg he, if_pos hsse]
            rw [List.append_nil]
          rw [hrun1]
          dsimp only
          have hcur : cursorAfterScalar
              (writesFor row col (scalarTuple fields t0)) row = row :=
            cursorAfterScalar_of_writes writesFor_isWrite
          rw [hcur]
          have hge := applyEvents_writesFor_length_ge (scalarTuple fields t0)
            g row col
          have hG2row := applyEvents_writesFor_row (scalarTuple fields t0) g
            row col (by omega) (by omega)
          have hr2 : readRowSlice fields
              (applyEvents (writesFor row col (scalarTuple fields t0)) g)
              row col = .ok (scalarTuple fields t0) := by
            rw [readRowSlice_ok_long fields _ row col (by omega) (by omega)]
            rw [hG2row, sliceEnd_scalarTuple hlayout t0]
            rw [pySlice_setCells hfs _ hcol]
          rw [runScalar_equal hr2 (normalizeList_fixed hfix0)
            (scalarTuple_head fields t0) hcmp2]
          rw [if_pos rfl]
          have hframe := applyEvents_writesFor_ne (scalarTuple fields t0) g
            row col (row - 1 - 1).toNat (by omega) (by omega) (by omega)
          have hrp2 : readRowSlice fields
              (applyEvents (writesFor row col (scalarTuple fields t0)) g)
              (row - 1) col = .ok (pySlice (rowAtN g (row - 1 - 1).toNat)
                (col - 1) (sliceEnd fields col)) := by
            rw [readRowSlice_ok_long fields _ (row - 1) col (by omega) (by omega)]
            rw [hframe]
          rw [scalarRetro_no_write hrp2 hnp hsse]
        · -- both writes in run 1
          have hrun1 : runScalar fields row col t0 t1 g =
              (writesFor row col (scalarTuple fields t0) ++
                writesFor (row - 1) col (scalarTuple fields t1), .ok ()) := by
            rw [runScalar_equal hr hn hh hc0, scalarRetro_ok hrp1 hnp,
              if_neg he, if_neg hsse]
          rw [hrun1]
          dsimp only
          have hcur : cursorAfterScalar
              (writesFor row col (scalarTuple fields t0) ++
                writesFor (row - 1) col (scalarTuple fields t1)) row = row := by
            refine cursorAfterScalar_of_writes ?_
            intro e hev
            rcases List.mem_append.1 hev with h | h
            · exact writesFor_isWrite e h
            · exact writesFor_isWrite e h
          rw [hcur]
          have hgrid : applyEvents
              (writesFor row col (scalarTuple fields t0) ++
                writesFor (row - 1) col (scalarTuple fields t1)) g =
              applyEvents (writesFor (row - 1) col (scalarTuple fields t1))
                (applyEvents (writesFor row col (scalarTuple fields t0)) g) :=
            applyEvents_append _ _ _
          rw [hgrid]
          have hge1 := applyEvents_writesFor_length_ge (scalarTuple fields t0)
            g row col
          have hge2 := applyEvents_writesFor_length_ge (scalarTuple fields t1)
            (applyEvents (writesFor row col (scalarTuple fields t0)) g)
            (row - 1) col
          have hG1row := applyEvents_writesFor_row (scalarTuple fields t0) g
            row col (by omega) (by omega)
          have hG2frame := applyEvents_writesFor_ne (scalarTuple fields t1)
            (applyEvents (writesFor row col (scalarTuple fields t0)) g)
            (row - 1) col (row - 1).toNat (by omega) (by omega) (by omega)
          have hr2 : readRowSlice fields
              (applyEvents (writesFor (row - 1) col (scalarTuple fields t1))
                (applyEvents (writesFor row col (scalarTuple fields t0)) g))
              row col = .ok (scalarTuple fields t0) := by
            rw [readRowSlice_ok_long fields _ row col (by omega) (by omega)]
            rw [hG2frame, hG1row, sliceEnd_scalarTuple hlayout t0]
            rw [pySlice_setCells hfs _ hcol]
          rw [runScalar_equal hr2 (normalizeList_fixed hfix0)
            (scalarTuple_head fields t0) hcmp2]
          rw [if_pos rfl]
          have hG2row := applyEvents_writesFor_row (scalarTuple fields t1)
            (applyEvents (writesFor row col (scalarTuple fields t0)) g)
            (row - 1) col (by omega) (by omega)
          have hrp2 : readRowSlice fields
              (applyEvents (writesFor (row - 1) col (scalarTuple fields t1))
                (applyEvents (writesFor row col (scalarTuple fields t0)) g))
              (row - 1) col = .ok (scalarTuple fields t1) := by
            rw [readRowSlice_ok_long fields _ (row - 1) col (by omega) (by omega)]
            rw [hG2row, sliceEnd_scalarTuple hlayout t1]
            rw [pySlice_setCells hss _ hcol]
          rw [scalarRetro_no_write hrp2 (normalizeList_fixed hfix1) rfl]
    · -- older or comparison failure: run 1 emits nothing
      have hrun1 : runScalar fields row col t0 t1 g = ([], .ok ()) :=
        runScalar_older hr hn hh hc1 hc0
      rw [hrun1]
      dsimp only
      show (runScalar fields row col t0 t1 g).1 = []
      rw [hrun1]

/-- C1 counterexample: the equal-date branch compares the raw scraped tuple
against the *normalized* existing tuple, so an existing cell that is not a
fixed point of `normalize_sheet_value` (here "2,50%", normalized "2,5%") is
rewritten on every run.  The first run completes without error, does not
move the cursor, and leaves the grid literally unchanged — and the second
run on that grid still issues a nonempty write trace, refuting the claim
that the second run produces zero writes. -/
theorem c1_counterexample :
    (runScalar daFields 2 1 ⟨"01/01/2025", "x", "2,50%", false⟩
        ⟨"01/12/2024", "y", "7", false⟩
        [["01/12/2024", "7"], ["01/01/2025", "2,50%"]]).2 = .ok () ∧
    cursorAfterScalar (runScalar daFields 2 1 ⟨"01/01/2025", "x", "2,50%", false⟩
        ⟨"01/12/2024", "y", "7", false⟩
        [["01/12/2024", "7"], ["01/01/2025", "2,50%"]]).1 2 = 2 ∧
    applyEvents (runScalar daFields 2 1 ⟨"01/01/2025", "x", "2,50%", false⟩
        ⟨"01/12/2024", "y", "7", false⟩
        [["01/12/2024", "7"], ["01/01/2025", "2,50%"]]).1
        [["01/12/2024", "7"], ["01/01/2025", "2,50%"]] =
      [["01/12/2024", "7"], ["01/01/2025", "2,50%"]] ∧
    (runScalar daFields 2 1 ⟨"01/01/2025", "x", "2,50%", false⟩
        ⟨"01/12/2024", "y", "7", false⟩
        [["01/12/2024", "7"], ["01/01/2025", "2,50%"]]).1 ≠ [] := by
  refine ⟨by decide, by decide, by decide, by decide⟩

/-- C1 witness: the amended idempotence theorem applied to a concrete
scalar task in the newer-date branch (fixed-point values, two-field
layout): the first run advances the cursor and writes the new row, and the
second run on the stored cursor and updated sheet emits nothing. -/
theorem c1_idempotent_scalar_amended_witness :
    (runScalar daFields 2 1 ⟨"02/01/2025", "", "5", false⟩
        ⟨"01/01/2025", "", "4", false⟩ [["x", "y"], ["01/01/2025", "4"]]).2 =
      .ok () ∧
    (runScalar daFields
      (cursorAfterScalar (runScalar daFields 2 1 ⟨"02/01/2025", "", "5", false⟩
          ⟨"01/01/2025", "", "4", false⟩ [["x", "y"], ["01/01/2025", "4"]]).1 2) 1
      ⟨"02/01/2025", "", "5", false⟩ ⟨"01/01/2025", "", "4", false⟩
      (applyEvents (runScalar daFields 2 1 ⟨"02/01/2025", "", "5", false⟩
          ⟨"01/01/2025", "", "4", false⟩ [["x", "y"], ["01/01/2025", "4"]]).1
        [["x", "y"], ["01/01/2025", "4"]])).1 = [] :=
  ⟨by decide,
   c1_idempotent_scalar_amended daFields 2 1 ⟨"02/01/2025", "", "5", false⟩
     ⟨"01/01/2025", "", "4", false⟩ [["x", "y"], ["01/01/2025", "4"]]
     (by decide) (by decide) (Or.inl rfl) (by decide) (by decide)⟩
